import Mathlib

/-!
carrytrade/huobi : triangular-arbitrage scanner

A shallow embedding of `huobi/huobi.go` and a verification of its cycle
enumeration (`GetTriangleChains`), pair lookup (`getSymbolStr`), rate
estimation (`GetExchangeRate`) and cycle evaluation (`Chain.Try`).

Modelling conventions

* `Currency` is Go's `type Currency string`, a Lean `String`.
* `uint` fields are `Nat` (they are only compared, never computed with).
* `float64` is modelled by `ℚ`.  `GetExchangeRate` and `Chain.Try` use exact
  arithmetic; the statements about them are those that hold of the code's own
  expressions.  `GetExchangeRateFl` and `Chain.TryFl` apply a rounding `fl`
  after every operation (`round64` is binary64 round-to-nearest-even) and carry
  the statements in which rounding, underflow or overflow matter.  Infinities
  and NaN are not represented; a division by zero yields `0` in the model, so
  every statement that relies on the value of a quotient carries hypotheses
  that make the divisor non-zero.
* A Go run-time panic (index out of range) is the `none` of an `Option` result.
* The HTTP round trip inside `Depth` is a parameter: the outcome of the request
  is a value of `Response`.
-/

set_option linter.dupNamespace false

namespace huobi

/-- Go: `type Currency string`. -/
abbrev Currency := String

/-- Go: `type Chain []Currency`. -/
abbrev Chain := List Currency

/-- Go: `type Symbol struct`. -/
structure Symbol where
  BaseCurrency : Currency
  QuoteCurrency : Currency
  PricePrecision : Nat
  AmountPrecision : Nat
  SymbolPartition : String
deriving DecidableEq, Repr

/-- Go: `type PriceAmount []float64`. -/
abbrev PriceAmount := List ℚ

/-- Go: `type MarketDepth struct`. -/
structure MarketDepth where
  Bids : List PriceAmount
  Asks : List PriceAmount
  Ts : Nat
  Version : Nat
  SymbolStr : String
deriving DecidableEq, Repr

/-- Go: `type ExchangeRate struct`. -/
structure ExchangeRate where
  From : Currency
  To : Currency
  Rate : ℚ
  Max : ℚ
deriving DecidableEq, Repr

/-- Go: `func (s *Symbol) Members() []Currency`. -/
def Symbol.Members (s : Symbol) : List Currency :=
  [s.BaseCurrency, s.QuoteCurrency]

/-- The loop of `Has`: return true at the first element equal to `c`. -/
def hasLoop (c : Currency) : List Currency → Bool
  | [] => false
  | v :: rest => if v = c then true else hasLoop c rest

/-- Go: `func (s *Symbol) Has(c Currency) bool`. -/
def Symbol.Has (s : Symbol) (c : Currency) : Bool :=
  hasLoop c s.Members

/-- Go: `func (s *Symbol) Symbol() string`. -/
def Symbol.Symbol (s : Symbol) : String :=
  s.BaseCurrency ++ s.QuoteCurrency

/-- Go: `func (c Chain) Pairs() [][]Currency`; `none` is the index panic of a
chain with fewer than three elements. -/
def Chain.Pairs (ch : Chain) : Option (List (List Currency)) :=
  match ch[0]?, ch[1]?, ch[2]? with
  | some c0, some c1, some c2 => some [[c0, c1], [c1, c2], [c2, c0]]
  | _, _, _ => none

/-- First loop nest of `GetTriangleChains` (lines 131-142): the ordered pairs
`{s, s1}` of different catalog entries that both contain `start`.  The
two-element slice `[]Symbol{s, s1}` is a Lean pair. -/
def startPairs (symbols : List Symbol) (start : Currency) : List (Symbol × Symbol) :=
  symbols.flatMap fun s =>
    symbols.flatMap fun s1 =>
      if s = s1 then []
      else if !s.Has start || !s1.Has start then []
      else [(s, s1)]

/-- Lines 144-149: the members of `p[0]` then `p[1]` that differ from `start`. -/
def nonStartMembers (p : Symbol × Symbol) (start : Currency) : List Currency :=
  (p.1.Members ++ p.2.Members).filter fun v => decide (v ≠ start)

/-- Lines 153-158: two chains are appended for every catalog entry that
contains both members. -/
def closingChains (symbols : List Symbol) (start m0 m1 : Currency) : List Chain :=
  symbols.flatMap fun s =>
    if s.Has m0 && s.Has m1 then [[start, m0, m1], [start, m1, m0]] else []

/-- Body of the second loop (lines 144-158) for one element of `pairs`. -/
def chainsOfPair (symbols : List Symbol) (start : Currency) (p : Symbol × Symbol) :
    List Chain :=
  match nonStartMembers p start with
  | [m0, m1] => closingChains symbols start m0 m1
  | _ => []

/-- Go: `func GetTriangleChains(symbols []Symbol, start Currency) (chains []Chain)`. -/
def GetTriangleChains (symbols : List Symbol) (start : Currency) : List Chain :=
  (startPairs symbols start).flatMap (chainsOfPair symbols start)

/-- Go: `func getSymbolStr(pair []Currency, symbols []Symbol) (symbolStr string)`.
`pair[0]` is read at every catalog entry and `pair[1]` only when the entry has
`pair[0]` (short-circuit `&&`); `none` is the index panic. -/
def getSymbolStr (pair : List Currency) : List Symbol → Option String
  | [] => some ""
  | s :: rest =>
    match pair[0]? with
    | none => none
    | some a =>
      if s.Has a then
        match pair[1]? with
        | none => none
        | some b => if s.Has b then some s.Symbol else getSymbolStr pair rest
      else getSymbolStr pair rest

/-- Go: `re.MatchString(subject)` for `re` compiled from `pattern`, on the
patterns this program builds: `"^"` followed by a currency token.  For a token
made of letters and digits the pattern matches exactly the subjects that start
with the token.  Tokens holding regexp metacharacters are outside the model:
the pattern may then match other subjects, and when it is not a valid regexp
the error of `regexp.Compile` is discarded, `re` is nil and the call panics.
Statements that depend on the branch taken or on the call returning assume
`plainToken`. -/
def MatchString (pattern subject : String) : Bool :=
  match pattern.data with
  | '^' :: token => token.isPrefixOf subject.data
  | _ => false

/-- A currency token made of letters and digits only. -/
def plainToken (c : Currency) : Bool :=
  c.data.all Char.isAlphanum

/-- The accumulation loop of `GetExchangeRate` (lines 240-249), started with
`max`, `amount` and `sum`; it returns the final `(amount, sum)`.  `none` is the
index panic on an entry with fewer than two numbers. -/
def topLoop : List PriceAmount → Int → ℚ → ℚ → Option (ℚ × ℚ)
  | [], _, amount, sum => some (amount, sum)
  | v :: rest, max, amount, sum =>
    if max = 0 then some (amount, sum)
    else
      match v[0]?, v[1]? with
      | some price, some amt => topLoop rest (max - 1) (amount + amt) (sum + price * amt)
      | _, _ => none

/-- Go: `func GetExchangeRate(from, to Currency, depth MarketDepth) (er ExchangeRate)`;
`src` and `dst` stand for `from` and `to`.  `none` is the index panic of the loop. -/
def GetExchangeRate (src dst : Currency) (depth : MarketDepth) : Option ExchangeRate :=
  let pattern := "^" ++ src
  let data := if MatchString pattern depth.SymbolStr then depth.Bids else depth.Asks
  match topLoop data 1 0 0 with
  | none => none
  | some (amount, sum) =>
    if MatchString pattern depth.SymbolStr then
      some { From := src, To := dst, Rate := amount / sum, Max := amount }
    else
      some { From := src, To := dst, Rate := sum / amount, Max := sum }

/-- Outcome of the HTTP request issued by `Depth`: either `client.Do` fails, or
a reply arrives with a status code and a body that `json.Unmarshal` either
rejects (`none`) or decodes into the `status` and `tick` fields. -/
inductive Response where
  | failed (err : String)
  | reply (statusCode : Nat) (decoded : Option (String × MarketDepth))
deriving DecidableEq, Repr

/-- The zero value of `MarketDepth`. -/
def zeroDepth : MarketDepth :=
  { Bids := [], Asks := [], Ts := 0, Version := 0, SymbolStr := "" }

/-- Go: `func Depth(symbolStr string, depthType int) (md MarketDepth, err error)`,
with the request outcome supplied by `http`.  The error is `some message`.
The error of `http.NewRequest` is discarded in the source, so a symbol string
that makes the URL unparsable leaves `req` nil and the next line panics; such
strings are outside the model, and statements that depend on `Depth` returning
assume a `plainToken` symbol string. -/
def Depth (http : String → Int → Response) (symbolStr : String) (depthType : Int) :
    MarketDepth × Option String :=
  match http symbolStr depthType with
  | .failed err => (zeroDepth, some err)
  | .reply statusCode decoded =>
    if statusCode ≠ 200 then (zeroDepth, some "access failed")
    else
      match decoded with
      | none => (zeroDepth, some "invalid JSON")
      | some (status, tick) =>
        if status = "error" then (zeroDepth, some "exchange server error")
        else ({ tick with SymbolStr := symbolStr }, none)

/-- The loop of `Try` (lines 68-71) over the remaining legs; `n` counts the
requests already issued, `http n` is the outcome of the next one.  The error
returned by `Depth` is discarded (`depth, _ := Depth(...)`). -/
def tryLoop (http : Nat → String → Int → Response) (symbols : List Symbol) :
    List (List Currency) → Nat → List ExchangeRate → Option (List ExchangeRate)
  | [], _, rates => some rates
  | p :: rest, n, rates =>
    match getSymbolStr p symbols with
    | none => none
    | some symbolStr =>
      let depth := (Depth (http n) symbolStr 0).1
      match p[0]?, p[1]? with
      | some p0, some p1 =>
        match GetExchangeRate p0 p1 depth with
        | none => none
        | some er => tryLoop http symbols rest (n + 1) (rates ++ [er])
      | _, _ => none

/-- Lines 72-77 of `Try`: bottleneck volume and net rate from the leg rates. -/
def tryResult (rates : List ExchangeRate) : Option (ℚ × ℚ) :=
  match rates[0]?, rates[1]?, rates[2]? with
  | some r0, some r1, some r2 =>
    let min0 := min r0.Max (r1.Max * r0.Rate)
    let min1 := min min0 (r2.Max * r1.Rate * r0.Rate)
    let rate := 1 / (r0.Rate * r1.Rate * r2.Rate)
    let rate := rate - 0.002
    some (min1, rate)
  | _, _, _ => none

/-- Go: `func (c Chain) Try(symbols []Symbol) (float64, float64)`. -/
def Chain.Try (http : Nat → String → Int → Response) (ch : Chain) (symbols : List Symbol) :
    Option (ℚ × ℚ) :=
  match ch.Pairs with
  | none => none
  | some pairs =>
    match tryLoop http symbols pairs 0 [] with
    | none => none
    | some rates => tryResult rates


/-! ## Example data -/

/-- The catalog {usdt-btc, btc-eth, eth-usdt}, each entry written base first. -/
def triangleCatalog : List Symbol :=
  [{ BaseCurrency := "usdt", QuoteCurrency := "btc", PricePrecision := 2,
     AmountPrecision := 4, SymbolPartition := "main" },
   { BaseCurrency := "btc", QuoteCurrency := "eth", PricePrecision := 6,
     AmountPrecision := 4, SymbolPartition := "main" },
   { BaseCurrency := "eth", QuoteCurrency := "usdt", PricePrecision := 2,
     AmountPrecision := 4, SymbolPartition := "main" }]

/-- A catalog that lists the pair btc/usdt twice, once in each orientation.
Every entry has distinct base and quote currencies. -/
def mirroredCatalog : List Symbol :=
  [{ BaseCurrency := "btc", QuoteCurrency := "usdt", PricePrecision := 2,
     AmountPrecision := 4, SymbolPartition := "main" },
   { BaseCurrency := "usdt", QuoteCurrency := "btc", PricePrecision := 2,
     AmountPrecision := 4, SymbolPartition := "main" }]

/-- A snapshot of "btcusdt" whose best bid is (price 50000, amount 2) and whose
best ask is (price 50010, amount 3), with one deeper level on each side. -/
def btcusdtDepth : MarketDepth :=
  { Bids := [[50000, 2], [49990, 7]], Asks := [[50010, 3], [50020, 5]],
    Ts := 1, Version := 1, SymbolStr := "btcusdt" }

/-- A successful reply (status code 200, status field "ok") carrying the given
bid and ask levels. -/
def okReply (bids asks : List PriceAmount) : Response :=
  .reply 200 (some ("ok",
    { Bids := bids, Asks := asks, Ts := 1, Version := 1, SymbolStr := "" }))

/-- Request outcomes in which the best ask of "ethusdt" is (0.99, 10), that of
"btceth" is (0.98, 10) and that of "usdtbtc" is (1.02, 10); other symbols are
not served. -/
def quotedHttp : Nat → String → Int → Response := fun _ symbolStr _ =>
  if symbolStr = "ethusdt" then
    okReply [[0.97, 10]] [[0.99, 10]]
  else if symbolStr = "btceth" then
    okReply [[0.96, 10]] [[0.98, 10]]
  else if symbolStr = "usdtbtc" then
    okReply [[1.01, 10]] [[1.02, 10]]
  else .failed "unknown symbol"

/-- Request outcomes giving the legs of (usdt, eth, btc) the rates 0.5, 0.8, 1
and the maximum volumes 10, 5, 100. -/
def volumeHttp : Nat → String → Int → Response := fun _ symbolStr _ =>
  if symbolStr = "ethusdt" then
    okReply [] [[0.5, 20]]
  else if symbolStr = "btceth" then
    okReply [] [[0.8, 6.25]]
  else if symbolStr = "usdtbtc" then
    okReply [] [[1, 100]]
  else .failed "unknown symbol"

/-- Every request fails in transport. -/
def failingHttp : Nat → String → Int → Response := fun _ _ _ =>
  .failed "connection refused"

/-- A catalog entry for the pair {a, b}: base `a` and quote `b`, or the reverse
when `flip` is set. -/
def orientedSymbol (flip : Bool) (a b : Currency) (pp ap : Nat) (part : String) : Symbol :=
  if flip then
    { BaseCurrency := b, QuoteCurrency := a, PricePrecision := pp, AmountPrecision := ap,
      SymbolPartition := part }
  else
    { BaseCurrency := a, QuoteCurrency := b, PricePrecision := pp, AmountPrecision := ap,
      SymbolPartition := part }

/-- The catalog {usdt-btc, btc-eth, eth-usdt} with an arbitrary base/quote
orientation and arbitrary precision and partition metadata on each entry. -/
def triangleCatalogWith (f1 f2 f3 : Bool) (pp1 ap1 pp2 ap2 pp3 ap3 : Nat)
    (part1 part2 part3 : String) : List Symbol :=
  [orientedSymbol f1 "usdt" "btc" pp1 ap1 part1,
   orientedSymbol f2 "btc" "eth" pp2 ap2 part2,
   orientedSymbol f3 "eth" "usdt" pp3 ap3 part3]

/-- Spec, LookupPair: the pair whose member set equals {a, b}, the first one in
catalog order when there are several. -/
def LookupPair (catalog : List Symbol) (a b : Currency) : Option Symbol :=
  catalog.find? fun s =>
    decide ((s.BaseCurrency = a ∧ s.QuoteCurrency = b) ∨
      (s.BaseCurrency = b ∧ s.QuoteCurrency = a))

/-- A second snapshot of "btcusdt" with the same best bid and best ask as
`btcusdtDepth` and different deeper levels, time stamp and version. -/
def btcusdtDepthDeeper : MarketDepth :=
  { Bids := [[50000, 2], [49000, 100], [48000, 1]], Asks := [[50010, 3]],
    Ts := 2, Version := 9, SymbolStr := "btcusdt" }

/-- The side of the book that `GetExchangeRate` reads for `src` (lines 235-239). -/
def consultedSide (src : Currency) (depth : MarketDepth) : List PriceAmount :=
  if MatchString ("^" ++ src) depth.SymbolStr then depth.Bids else depth.Asks

/-- A symbol whose quote token "usd" is a prefix of its base token "usdc". -/
def usdcusdSymbol : Symbol :=
  { BaseCurrency := "usdc", QuoteCurrency := "usd", PricePrecision := 4,
    AmountPrecision := 2, SymbolPartition := "main" }

/-- A snapshot of "usdcusd": best bid (1.001, 40), best ask (1.002, 70). -/
def usdcusdDepth : MarketDepth :=
  { Bids := [[1.001, 40]], Asks := [[1.002, 70]], Ts := 1, Version := 1,
    SymbolStr := "usdcusd" }

/-- The catalog entry of "btcusdt": base btc, quote usdt. -/
def btcusdtSymbol : Symbol :=
  { BaseCurrency := "btc", QuoteCurrency := "usdt", PricePrecision := 2,
    AmountPrecision := 4, SymbolPartition := "main" }

/-- A catalog holding an entry whose base and quote tokens are both empty. -/
def emptyTokenCatalog : List Symbol :=
  [{ BaseCurrency := "", QuoteCurrency := "", PricePrecision := 0,
     AmountPrecision := 0, SymbolPartition := "" },
   { BaseCurrency := "usdt", QuoteCurrency := "", PricePrecision := 2,
     AmountPrecision := 4, SymbolPartition := "main" },
   { BaseCurrency := "", QuoteCurrency := "usdt", PricePrecision := 2,
     AmountPrecision := 4, SymbolPartition := "main" }]

/-! ## float64 rounding

Every float64 operation of the source returns the exact result rounded to a
binary64 value.  The definitions below repeat `GetExchangeRate` and `Try` with
a rounding `fl` applied after every arithmetic operation: `fl = id` is the
exact arithmetic of `GetExchangeRate` and `Try` above, `fl = round64` is
binary64 round-to-nearest-even.  Infinities, NaN and the sign of zero are not
represented: a result of magnitude 2^1024 or more (an infinity in Go) and a
division by zero (an infinity or NaN in Go) are outside the model, and the
statements carry hypotheses that exclude them. -/

/-- Round to the nearest integer, a tie going to the even neighbour. -/
def roundEven (x : ℚ) : ℤ :=
  let n := ⌊x⌋
  let r := x - n
  if r < 1 / 2 then n
  else if 1 / 2 < r then n + 1
  else if n % 2 = 0 then n else n + 1

/-- The spacing of the binary64 values around `x`: 2^(e - 52) for
2^e ≤ |x| < 2^(e + 1), and 2^(-1074) in the subnormal range. -/
def quantum64 (x : ℚ) : ℚ :=
  (2 : ℚ) ^ (max (Int.log 2 |x|) (-1022) - 52)

/-- Round-to-nearest-even onto binary64, for results below 2^1024 in
magnitude. -/
def round64 (x : ℚ) : ℚ :=
  roundEven (x / quantum64 x) * quantum64 x

/-- The rounding `fl` has relative error at most `u` at the exact value `x`;
binary64 satisfies it with u = 2^(-53) unless the operation underflows or
overflows. -/
abbrev withinRel (fl : ℚ → ℚ) (u x : ℚ) : Prop :=
  |fl x - x| ≤ u * |x|

/-- The loop of `GetExchangeRate` (lines 240-249) with rounded operations. -/
def topLoopFl (fl : ℚ → ℚ) : List PriceAmount → Int → ℚ → ℚ → Option (ℚ × ℚ)
  | [], _, amount, sum => some (amount, sum)
  | v :: rest, max, amount, sum =>
    if max = 0 then some (amount, sum)
    else
      match v[0]?, v[1]? with
      | some price, some amt =>
        topLoopFl fl rest (max - 1) (fl (amount + amt)) (fl (sum + fl (price * amt)))
      | _, _ => none

/-- Go: `GetExchangeRate` with rounded operations. -/
def GetExchangeRateFl (fl : ℚ → ℚ) (src dst : Currency) (depth : MarketDepth) :
    Option ExchangeRate :=
  let pattern := "^" ++ src
  let data := if MatchString pattern depth.SymbolStr then depth.Bids else depth.Asks
  match topLoopFl fl data 1 0 0 with
  | none => none
  | some (amount, sum) =>
    if MatchString pattern depth.SymbolStr then
      some { From := src, To := dst, Rate := fl (amount / sum), Max := amount }
    else
      some { From := src, To := dst, Rate := fl (sum / amount), Max := sum }

/-- The loop of `Try` (lines 68-71) with rounded operations. -/
def tryLoopFl (fl : ℚ → ℚ) (http : Nat → String → Int → Response) (symbols : List Symbol) :
    List (List Currency) → Nat → List ExchangeRate → Option (List ExchangeRate)
  | [], _, rates => some rates
  | p :: rest, n, rates =>
    match getSymbolStr p symbols with
    | none => none
    | some symbolStr =>
      let depth := (Depth (http n) symbolStr 0).1
      match p[0]?, p[1]? with
      | some p0, some p1 =>
        match GetExchangeRateFl fl p0 p1 depth with
        | none => none
        | some er => tryLoopFl fl http symbols rest (n + 1) (rates ++ [er])
      | _, _ => none

/-- Lines 72-77 of `Try` with rounded operations; `math.Min` is exact and the
constant 0.002 is converted to float64. -/
def tryResultFl (fl : ℚ → ℚ) (rates : List ExchangeRate) : Option (ℚ × ℚ) :=
  match rates[0]?, rates[1]?, rates[2]? with
  | some r0, some r1, some r2 =>
    let min0 := min r0.Max (fl (r1.Max * r0.Rate))
    let min1 := min min0 (fl (fl (r2.Max * r1.Rate) * r0.Rate))
    let rate := fl (1 / fl (fl (r0.Rate * r1.Rate) * r2.Rate))
    let rate := fl (rate - fl 0.002)
    some (min1, rate)
  | _, _, _ => none

/-- Go: `Chain.Try` with rounded operations. -/
def Chain.TryFl (fl : ℚ → ℚ) (http : Nat → String → Int → Response) (ch : Chain)
    (symbols : List Symbol) : Option (ℚ × ℚ) :=
  match ch.Pairs with
  | none => none
  | some pairs =>
    match tryLoopFl fl http symbols pairs 0 [] with
    | none => none
    | some rates => tryResultFl fl rates

/-- A locked book of "btcusdt": best bid (49, 1) and best ask (49, 1). -/
def lockedDepth : MarketDepth :=
  { Bids := [[49, 1]], Asks := [[49, 1]], Ts := 1, Version := 1, SymbolStr := "btcusdt" }

/-- A book of "btcusdt" whose best bid and best ask are (2^(-600), 2^(-600)):
positive binary64 values whose product underflows. -/
def tinyDepth : MarketDepth :=
  { Bids := [[(2 : ℚ) ^ (-600 : ℤ), (2 : ℚ) ^ (-600 : ℤ)]],
    Asks := [[(2 : ℚ) ^ (-600 : ℤ), (2 : ℚ) ^ (-600 : ℤ)]],
    Ts := 1, Version := 1, SymbolStr := "btcusdt" }

/-! ## Membership lemmas -/

theorem hasLoop_iff (c : Currency) (l : List Currency) : hasLoop c l = true ↔ c ∈ l := by
  induction l with
  | nil => simp [hasLoop]
  | cons v rest ih =>
    by_cases h : v = c
    · simp [hasLoop, h]
    · have h2 : ¬ c = v := fun e => h e.symm
      simp [hasLoop, h, h2, ih]

theorem has_iff (s : Symbol) (c : Currency) :
    s.Has c = true ↔ s.BaseCurrency = c ∨ s.QuoteCurrency = c := by
  rw [Symbol.Has, hasLoop_iff]
  simp only [Symbol.Members, List.mem_cons, List.mem_singleton, List.not_mem_nil, or_false]
  constructor <;> rintro (h | h)
  exacts [Or.inl h.symm, Or.inr h.symm, Or.inl h.symm, Or.inr h.symm]

theorem mem_startPairs (symbols : List Symbol) (start : Currency) (s s1 : Symbol) :
    (s, s1) ∈ startPairs symbols start ↔
      s ∈ symbols ∧ s1 ∈ symbols ∧ s ≠ s1 ∧ s.Has start = true ∧ s1.Has start = true := by
  unfold startPairs
  simp only [List.mem_flatMap]
  constructor
  · rintro ⟨a, ha, b, hb, h⟩
    by_cases e : a = b
    · simp [e] at h
    · cases g1 : a.Has start <;> cases g2 : b.Has start <;> simp [e, g1, g2] at h
      obtain ⟨h1, h2⟩ := h
      subst h1 h2
      exact ⟨ha, hb, e, g1, g2⟩
  · rintro ⟨ha, hb, e, g1, g2⟩
    exact ⟨s, ha, s1, hb, by simp [e, g1, g2]⟩

theorem mem_closingChains (symbols : List Symbol) (start m0 m1 : Currency) (c : Chain) :
    c ∈ closingChains symbols start m0 m1 ↔
      (∃ s ∈ symbols, s.Has m0 = true ∧ s.Has m1 = true) ∧
        (c = [start, m0, m1] ∨ c = [start, m1, m0]) := by
  unfold closingChains
  simp only [List.mem_flatMap]
  constructor
  · rintro ⟨s, hs, h⟩
    by_cases g : (s.Has m0 && s.Has m1) = true
    · simp only [g, if_true, List.mem_cons, List.mem_singleton, List.not_mem_nil, or_false] at h
      simp only [Bool.and_eq_true] at g
      exact ⟨⟨s, hs, g⟩, h⟩
    · simp [g] at h
  · rintro ⟨⟨s, hs, g1, g2⟩, h⟩
    refine ⟨s, hs, ?_⟩
    simp only [g1, g2, Bool.and_self, if_true, List.mem_cons, List.mem_singleton,
      List.not_mem_nil, or_false]
    exact h

theorem mem_GetTriangleChains (symbols : List Symbol) (start : Currency) (c : Chain) :
    c ∈ GetTriangleChains symbols start ↔
      ∃ s s1 m0 m1, (s, s1) ∈ startPairs symbols start ∧
        nonStartMembers (s, s1) start = [m0, m1] ∧ c ∈ closingChains symbols start m0 m1 := by
  unfold GetTriangleChains
  simp only [List.mem_flatMap]
  constructor
  · rintro ⟨⟨s, s1⟩, hp, h⟩
    unfold chainsOfPair at h
    split at h
    · next m0 m1 hm => exact ⟨s, s1, m0, m1, hp, hm, h⟩
    · simp at h
  · rintro ⟨s, s1, m0, m1, hp, hm, h⟩
    refine ⟨(s, s1), hp, ?_⟩
    unfold chainsOfPair
    rw [hm]
    exact h

/-- When both entries of a pair contain `start`, a two-element list of
non-start members takes one currency from each entry. -/
theorem nonStartMembers_eq_pair (s s1 : Symbol) (start m0 m1 : Currency)
    (hs : s.Has start = true) (hs1 : s1.Has start = true)
    (h : nonStartMembers (s, s1) start = [m0, m1]) :
    m0 ≠ start ∧ m1 ≠ start ∧ s.Has m0 = true ∧ s1.Has m1 = true := by
  rw [has_iff] at hs hs1
  simp only [has_iff]
  simp only [nonStartMembers, Symbol.Members, List.cons_append, List.nil_append] at h
  by_cases a : s.BaseCurrency = start <;> by_cases b : s.QuoteCurrency = start <;>
    by_cases c : s1.BaseCurrency = start <;> by_cases d : s1.QuoteCurrency = start <;>
    simp [List.filter, a, b, c, d] at h hs hs1 <;>
    (try (obtain ⟨rfl, rfl⟩ := h)) <;> simp_all

/-- Converse: an entry `{start, m0}` paired with an entry `{start, m1}`. -/
theorem nonStartMembers_of_has (s s1 : Symbol) (start m0 m1 : Currency)
    (h0 : m0 ≠ start) (h1 : m1 ≠ start)
    (hs : s.Has start = true) (hm0 : s.Has m0 = true)
    (hs1 : s1.Has start = true) (hm1 : s1.Has m1 = true) :
    nonStartMembers (s, s1) start = [m0, m1] := by
  rw [has_iff] at hs hs1 hm0 hm1
  simp only [nonStartMembers, Symbol.Members, List.cons_append, List.nil_append]
  rcases hs with hs | hs <;> rcases hm0 with hm0 | hm0 <;>
    rcases hs1 with hs1 | hs1 <;> rcases hm1 with hm1 | hm1 <;>
    first
      | (exfalso; exact h0 (hm0.symm.trans hs))
      | (exfalso; exact h1 (hm1.symm.trans hs1))
      | (simp [List.filter, hs, hs1, hm0, hm1, h0, h1])

/-! ## Cycle enumeration -/

/-- C1: `GetTriangleChains` covers both directions of every triangle.  If the
catalog has an entry containing A and B, one containing B and C and one
containing C and A, for pairwise distinct A, B, C, then the result for
reference A contains both (A, B, C) and (A, C, B). -/
theorem GetTriangleChains_covers_both_directions (symbols : List Symbol) (A B C : Currency)
    (hAB : A ≠ B) (hBC : B ≠ C) (hCA : C ≠ A)
    (hab : ∃ s ∈ symbols, s.Has A = true ∧ s.Has B = true)
    (hbc : ∃ s ∈ symbols, s.Has B = true ∧ s.Has C = true)
    (hca : ∃ s ∈ symbols, s.Has C = true ∧ s.Has A = true) :
    [A, B, C] ∈ GetTriangleChains symbols A ∧ [A, C, B] ∈ GetTriangleChains symbols A := by
  obtain ⟨sab, hsab, habA, habB⟩ := hab
  obtain ⟨sca, hsca, hcaC, hcaA⟩ := hca
  have hne : sab ≠ sca := by
    intro e
    subst e
    rw [has_iff] at habA habB hcaC
    rcases habA with a | a <;> rcases habB with b | b <;> rcases hcaC with c | c
    all_goals first
      | exact hAB (a.symm.trans b)
      | exact hBC (b.symm.trans c)
      | exact hCA (c.symm.trans a)
  have hp : (sab, sca) ∈ startPairs symbols A :=
    (mem_startPairs symbols A sab sca).2 ⟨hsab, hsca, hne, habA, hcaA⟩
  have hm : nonStartMembers (sab, sca) A = [B, C] :=
    nonStartMembers_of_has sab sca A B C (fun e => hAB e.symm) hCA habA habB hcaA hcaC
  constructor
  · exact (mem_GetTriangleChains symbols A _).2
      ⟨sab, sca, B, C, hp, hm, (mem_closingChains symbols A B C _).2 ⟨hbc, Or.inl rfl⟩⟩
  · exact (mem_GetTriangleChains symbols A _).2
      ⟨sab, sca, B, C, hp, hm, (mem_closingChains symbols A B C _).2 ⟨hbc, Or.inr rfl⟩⟩

theorem GetTriangleChains_covers_both_directions_witness :
    ["usdt", "btc", "eth"] ∈ GetTriangleChains triangleCatalog "usdt" ∧
      ["usdt", "eth", "btc"] ∈ GetTriangleChains triangleCatalog "usdt" :=
  GetTriangleChains_covers_both_directions triangleCatalog "usdt" "btc" "eth"
    (by decide) (by decide) (by decide) (by decide) (by decide) (by decide)

/-- C2: `GetTriangleChains` is sound.  Every chain of the result has exactly
three elements, starts with `start`, and each of its legs (c0,c1), (c1,c2),
(c2,c0) has a catalog entry containing both currencies of the leg; hence when
no entry contains both M and M', neither (start, M, M') nor (start, M', M) is
in the result. -/
theorem GetTriangleChains_sound (symbols : List Symbol) (start : Currency) (c : Chain)
    (hc : c ∈ GetTriangleChains symbols start) :
    c.length = 3 ∧ c.head? = some start ∧
      (∃ x y, c = [start, x, y] ∧
        (∃ s ∈ symbols, s.Has start = true ∧ s.Has x = true) ∧
        (∃ s ∈ symbols, s.Has x = true ∧ s.Has y = true) ∧
        (∃ s ∈ symbols, s.Has y = true ∧ s.Has start = true)) ∧
      (∀ M M', (∀ s ∈ symbols, ¬ (s.Has M = true ∧ s.Has M' = true)) →
        c ≠ [start, M, M'] ∧ c ≠ [start, M', M]) := by
  obtain ⟨s, s1, m0, m1, hp, hm, hcl⟩ := (mem_GetTriangleChains symbols start c).1 hc
  obtain ⟨hs, hs1, -, hst, hst1⟩ := (mem_startPairs symbols start s s1).1 hp
  obtain ⟨-, -, h0, h1⟩ := nonStartMembers_eq_pair s s1 start m0 m1 hst hst1 hm
  obtain ⟨⟨t, ht, ht0, ht1⟩, hcc⟩ := (mem_closingChains symbols start m0 m1 c).1 hcl
  have legs : ∃ x y, c = [start, x, y] ∧
      (∃ s ∈ symbols, s.Has start = true ∧ s.Has x = true) ∧
      (∃ s ∈ symbols, s.Has x = true ∧ s.Has y = true) ∧
      (∃ s ∈ symbols, s.Has y = true ∧ s.Has start = true) := by
    rcases hcc with e | e
    · exact ⟨m0, m1, e, ⟨s, hs, hst, h0⟩, ⟨t, ht, ht0, ht1⟩, ⟨s1, hs1, h1, hst1⟩⟩
    · exact ⟨m1, m0, e, ⟨s1, hs1, hst1, h1⟩, ⟨t, ht, ht1, ht0⟩, ⟨s, hs, h0, hst⟩⟩
  obtain ⟨x, y, e, l1, l2, l3⟩ := legs
  subst e
  refine ⟨rfl, rfl, ⟨x, y, rfl, l1, l2, l3⟩, ?_⟩
  intro M M' hno
  obtain ⟨u, hu, hux, huy⟩ := l2
  constructor
  · intro e
    simp only [List.cons.injEq, and_true, true_and] at e
    obtain ⟨rfl, rfl⟩ := e
    exact hno u hu ⟨hux, huy⟩
  · intro e
    simp only [List.cons.injEq, and_true, true_and] at e
    obtain ⟨rfl, rfl⟩ := e
    exact hno u hu ⟨huy, hux⟩

theorem GetTriangleChains_sound_witness :
    ["usdt", "eth", "btc"] ∈ GetTriangleChains triangleCatalog "usdt" ∧
      (["usdt", "eth", "btc"] : Chain).length = 3 ∧
      (["usdt", "eth", "btc"] : Chain).head? = some "usdt" ∧
      (∃ x y, (["usdt", "eth", "btc"] : Chain) = ["usdt", x, y] ∧
        (∃ s ∈ triangleCatalog, s.Has "usdt" = true ∧ s.Has x = true) ∧
        (∃ s ∈ triangleCatalog, s.Has x = true ∧ s.Has y = true) ∧
        (∃ s ∈ triangleCatalog, s.Has y = true ∧ s.Has "usdt" = true)) ∧
      (∀ M M', (∀ s ∈ triangleCatalog, ¬ (s.Has M = true ∧ s.Has M' = true)) →
        (["usdt", "eth", "btc"] : Chain) ≠ ["usdt", M, M'] ∧
          (["usdt", "eth", "btc"] : Chain) ≠ ["usdt", M', M]) :=
  ⟨by decide, GetTriangleChains_sound triangleCatalog "usdt" ["usdt", "eth", "btc"] (by decide)⟩

/-- C3 (counterexample): on a catalog whose two entries both have distinct
base and quote currencies but list the same pair btc/usdt, the result for
reference usdt contains the chain (usdt, btc, btc), whose last two elements
coincide. -/
theorem GetTriangleChains_distinct_counterexample :
    (∀ s ∈ mirroredCatalog, s.BaseCurrency ≠ s.QuoteCurrency) ∧
      ["usdt", "btc", "btc"] ∈ GetTriangleChains mirroredCatalog "usdt" := by
  decide

/-- C3 (amended): on a catalog in which every entry has distinct base and
quote currencies and no two different entries are made of the same two
currencies, every chain (start, x, y) of the result has three distinct
currencies. -/
theorem GetTriangleChains_distinct (symbols : List Symbol) (start x y : Currency)
    (_hinv : ∀ s ∈ symbols, s.BaseCurrency ≠ s.QuoteCurrency)
    (huniq : ∀ s ∈ symbols, ∀ s1 ∈ symbols,
      s.Has s1.BaseCurrency = true → s.Has s1.QuoteCurrency = true → s = s1)
    (hc : [start, x, y] ∈ GetTriangleChains symbols start) :
    start ≠ x ∧ start ≠ y ∧ x ≠ y := by
  obtain ⟨s, s1, m0, m1, hp, hm, hcl⟩ := (mem_GetTriangleChains symbols start _).1 hc
  obtain ⟨hs, hs1, hne, hst, hst1⟩ := (mem_startPairs symbols start s s1).1 hp
  obtain ⟨n0, n1, h0, h1⟩ := nonStartMembers_eq_pair s s1 start m0 m1 hst hst1 hm
  obtain ⟨-, hcc⟩ := (mem_closingChains symbols start m0 m1 _).1 hcl
  have hm01 : m0 ≠ m1 := by
    intro e
    subst e
    apply hne
    apply huniq s hs s1 hs1
    · rw [has_iff] at hst1 h1 ⊢
      rw [has_iff] at hst h0
      rcases hst1 with a | a <;> rcases h1 with b | b
      · exact absurd (b.symm.trans a) n0
      · rw [a]; exact hst
      · rw [b]; exact h0
      · exact absurd (b.symm.trans a) n0
    · rw [has_iff] at hst1 h1 ⊢
      rw [has_iff] at hst h0
      rcases hst1 with a | a <;> rcases h1 with b | b
      · exact absurd (b.symm.trans a) n0
      · rw [b]; exact h0
      · rw [a]; exact hst
      · exact absurd (b.symm.trans a) n0
  simp only [List.cons.injEq, and_true, true_and] at hcc
  rcases hcc with ⟨rfl, rfl⟩ | ⟨rfl, rfl⟩
  · exact ⟨fun e => n0 e.symm, fun e => n1 e.symm, hm01⟩
  · exact ⟨fun e => n1 e.symm, fun e => n0 e.symm, fun e => hm01 e.symm⟩

theorem GetTriangleChains_distinct_witness :
    "usdt" ≠ "btc" ∧ "usdt" ≠ "eth" ∧ "btc" ≠ "eth" :=
  GetTriangleChains_distinct triangleCatalog "usdt" "btc" "eth"
    (by decide) (by decide) (by decide)

/-! ## Rate estimation -/

theorem MatchString_caret (token subject : String) :
    MatchString ("^" ++ token) subject = true ↔ ∃ t, subject = token ++ t := by
  have hd : ("^" ++ token).data = '^' :: token.data := by
    rw [String.data_append]
    rfl
  unfold MatchString
  rw [hd]
  simp only [List.isPrefixOf_iff_prefix]
  constructor
  · rintro ⟨t, ht⟩
    refine ⟨⟨t⟩, ?_⟩
    apply String.ext
    rw [String.data_append]
    exact ht.symm
  · rintro ⟨t, rfl⟩
    exact ⟨t.data, by rw [String.data_append]⟩

theorem topLoop_zero (data : List PriceAmount) (amount sum : ℚ) :
    topLoop data 0 amount sum = some (amount, sum) := by
  cases data <;> simp [topLoop]

theorem topLoop_one (price amt : ℚ) (extra : List ℚ) (rest : List PriceAmount) :
    topLoop ((price :: amt :: extra) :: rest) 1 0 0 = some (amt, price * amt) := by
  simp [topLoop, topLoop_zero]

theorem GetExchangeRate_bid (src dst : Currency) (depth : MarketDepth)
    (price amt : ℚ) (extra : List ℚ) (rest : List PriceAmount)
    (hm : MatchString ("^" ++ src) depth.SymbolStr = true)
    (hb : depth.Bids = (price :: amt :: extra) :: rest) :
    GetExchangeRate src dst depth =
      some { From := src, To := dst, Rate := amt / (price * amt), Max := amt } := by
  simp [GetExchangeRate, hm, hb, topLoop_one]

theorem GetExchangeRate_ask (src dst : Currency) (depth : MarketDepth)
    (price amt : ℚ) (extra : List ℚ) (rest : List PriceAmount)
    (hm : MatchString ("^" ++ src) depth.SymbolStr = false)
    (ha : depth.Asks = (price :: amt :: extra) :: rest) :
    GetExchangeRate src dst depth =
      some { From := src, To := dst, Rate := (price * amt) / amt, Max := price * amt } := by
  simp [GetExchangeRate, hm, ha, topLoop_one]

/-- C4: `GetExchangeRate` with N = 1.  The result carries `from` and `to`; when
the snapshot symbol starts with the token of `from`, the first bid entry
(price, amount) gives Rate = amount / (price * amount) and Max = amount;
otherwise the first ask entry gives Rate = (price * amount) / amount and
Max = price * amount. -/
theorem GetExchangeRate_top_of_book (src dst : Currency) (depth : MarketDepth)
    (price amt : ℚ) (extra : List ℚ) (rest : List PriceAmount)
    (_hplain : plainToken src = true) :
    ((∃ t, depth.SymbolStr = src ++ t) → depth.Bids = (price :: amt :: extra) :: rest →
      GetExchangeRate src dst depth =
        some { From := src, To := dst, Rate := amt / (price * amt), Max := amt }) ∧
    ((¬ ∃ t, depth.SymbolStr = src ++ t) → depth.Asks = (price :: amt :: extra) :: rest →
      GetExchangeRate src dst depth =
        some { From := src, To := dst, Rate := (price * amt) / amt, Max := price * amt }) ∧
    (∀ er, GetExchangeRate src dst depth = some er → er.From = src ∧ er.To = dst) := by
  refine ⟨?_, ?_, ?_⟩
  · intro hpre hb
    exact GetExchangeRate_bid src dst depth price amt extra rest
      ((MatchString_caret src depth.SymbolStr).2 hpre) hb
  · intro hpre ha
    have hm : MatchString ("^" ++ src) depth.SymbolStr = false := by
      rw [← Bool.not_eq_true]
      exact fun h => hpre ((MatchString_caret src depth.SymbolStr).1 h)
    exact GetExchangeRate_ask src dst depth price amt extra rest hm ha
  · intro er h
    unfold GetExchangeRate at h
    simp only at h
    split at h
    · simp at h
    · split at h <;> (simp only [Option.some.injEq] at h; subst h; exact ⟨rfl, rfl⟩)

theorem GetExchangeRate_top_of_book_witness :
    GetExchangeRate "btc" "usdt" btcusdtDepth =
        some { From := "btc", To := "usdt", Rate := 2 / 100000, Max := 2 } ∧
      GetExchangeRate "usdt" "btc" btcusdtDepth =
        some { From := "usdt", To := "btc", Rate := (50010 * 3) / 3, Max := 50010 * 3 } := by
  constructor
  · have h := (GetExchangeRate_top_of_book "btc" "usdt" btcusdtDepth 50000 2 [] [[49990, 7]]
      (by decide)).1 ⟨"usdt", by decide⟩ rfl
    rw [h]
    norm_num
  · exact (GetExchangeRate_top_of_book "usdt" "btc" btcusdtDepth 50010 3 [] [[50020, 5]]
      (by decide)).2.1 (by
        rw [← MatchString_caret]
        decide) rfl

/-- C5 (counterexample): on the "btcusdt" snapshot with best bid (50000, 2) and
best ask (50010, 3), the rate from btc to usdt is 1/50000, not 50000, and the
rate from usdt to btc is 50010, not 1/50010. -/
theorem GetExchangeRate_rate_counterexample :
    (GetExchangeRate "btc" "usdt" btcusdtDepth).map ExchangeRate.Rate = some (1 / 50000) ∧
      (1 / 50000 : ℚ) ≠ 50000 ∧
      (GetExchangeRate "usdt" "btc" btcusdtDepth).map ExchangeRate.Rate = some 50010 ∧
      (50010 : ℚ) ≠ 1 / 50010 := by
  refine ⟨?_, by norm_num, ?_, by norm_num⟩
  · rw [GetExchangeRate_bid "btc" "usdt" btcusdtDepth 50000 2 [] [[49990, 7]] (by decide) rfl]
    norm_num
  · rw [GetExchangeRate_ask "usdt" "btc" btcusdtDepth 50010 3 [] [[50020, 5]] (by decide) rfl]
    norm_num

/-! ## Cycle evaluation -/

theorem Pairs_of_three (c0 c1 c2 : Currency) (more : List Currency) :
    Chain.Pairs (c0 :: c1 :: c2 :: more) = some [[c0, c1], [c1, c2], [c2, c0]] := by
  simp [Chain.Pairs]

theorem Try_eq_tryResult (http : Nat → String → Int → Response) (symbols : List Symbol)
    (c0 c1 c2 : Currency) (more : List Currency) (s1 s2 s3 : String)
    (r1 r2 r3 : ExchangeRate)
    (h1 : getSymbolStr [c0, c1] symbols = some s1)
    (h2 : getSymbolStr [c1, c2] symbols = some s2)
    (h3 : getSymbolStr [c2, c0] symbols = some s3)
    (g1 : GetExchangeRate c0 c1 (Depth (http 0) s1 0).1 = some r1)
    (g2 : GetExchangeRate c1 c2 (Depth (http 1) s2 0).1 = some r2)
    (g3 : GetExchangeRate c2 c0 (Depth (http 2) s3 0).1 = some r3) :
    Chain.Try http (c0 :: c1 :: c2 :: more) symbols = tryResult [r1, r2, r3] := by
  simp [Chain.Try, Pairs_of_three, tryLoop, h1, h2, h3, g1, g2, g3]

theorem tryResult_three (r1 r2 r3 : ExchangeRate) :
    tryResult [r1, r2, r3] =
      some (min (min r1.Max (r2.Max * r1.Rate)) (r3.Max * r2.Rate * r1.Rate),
        1 / (r1.Rate * r2.Rate * r3.Rate) - 0.002) := by
  simp [tryResult]

/-- C6: `Chain.Try` returns as second result the net rate
1 / (r1 * r2 * r3) - 0.002, where r1, r2, r3 are the rates `GetExchangeRate`
returns for the legs (c0, c1), (c1, c2), (c2, c0) in that order.  For the leg
rates 0.99, 0.98, 1.02 that net rate is greater than 1 and within 0.0001 of
1.0086. -/
theorem Try_net_rate (http : Nat → String → Int → Response) (symbols : List Symbol)
    (c0 c1 c2 : Currency) (more : List Currency) (s1 s2 s3 : String)
    (r1 r2 r3 : ExchangeRate)
    (h1 : getSymbolStr [c0, c1] symbols = some s1)
    (h2 : getSymbolStr [c1, c2] symbols = some s2)
    (h3 : getSymbolStr [c2, c0] symbols = some s3)
    (g1 : GetExchangeRate c0 c1 (Depth (http 0) s1 0).1 = some r1)
    (g2 : GetExchangeRate c1 c2 (Depth (http 1) s2 0).1 = some r2)
    (g3 : GetExchangeRate c2 c0 (Depth (http 2) s3 0).1 = some r3) :
    (Chain.Try http (c0 :: c1 :: c2 :: more) symbols).map Prod.snd =
        some (1 / (r1.Rate * r2.Rate * r3.Rate) - 0.002) ∧
      (r1.Rate = 0.99 → r2.Rate = 0.98 → r3.Rate = 1.02 →
        ∃ vol rate, Chain.Try http (c0 :: c1 :: c2 :: more) symbols = some (vol, rate) ∧
          rate = 1 / (0.99 * 0.98 * 1.02) - 0.002 ∧ 1 < rate ∧ |rate - 1.0086| < 0.0001) := by
  rw [Try_eq_tryResult http symbols c0 c1 c2 more s1 s2 s3 r1 r2 r3 h1 h2 h3 g1 g2 g3,
    tryResult_three]
  refine ⟨rfl, ?_⟩
  intro e1 e2 e3
  refine ⟨_, _, rfl, ?_, ?_, ?_⟩
  · rw [e1, e2, e3]
  · rw [e1, e2, e3]
    norm_num
  · rw [e1, e2, e3, abs_lt]
    constructor <;> norm_num

theorem Try_net_rate_witness :
    (Chain.Try quotedHttp ["usdt", "eth", "btc"] triangleCatalog).map Prod.snd =
      some (1 / (0.99 * 0.98 * 1.02) - 0.002) := by
  have h := (Try_net_rate quotedHttp triangleCatalog "usdt" "eth" "btc" []
    "ethusdt" "btceth" "usdtbtc" _ _ _ (by decide) (by decide) (by decide)
    (GetExchangeRate_ask "usdt" "eth" _ 0.99 10 [] [] (by decide) rfl)
    (GetExchangeRate_ask "eth" "btc" _ 0.98 10 [] [] (by decide) rfl)
    (GetExchangeRate_ask "btc" "usdt" _ 1.02 10 [] [] (by decide) rfl)).1
  rw [h]
  norm_num

/-- C7: `Chain.Try` returns as first result the bottleneck volume
min(Max1, Max2 * Rate1, Max3 * Rate2 * Rate1), where (Rate_i, Max_i) is the
result of `GetExchangeRate` on the i-th leg.  With Max1 = 10, Max2 = 5,
Rate1 = 0.5, Max3 = 100 and Rate2 * Rate1 = 0.4 the candidates are 10, 2.5, 40
and the bottleneck is 2.5. -/
theorem Try_bottleneck_volume (http : Nat → String → Int → Response) (symbols : List Symbol)
    (c0 c1 c2 : Currency) (more : List Currency) (s1 s2 s3 : String)
    (r1 r2 r3 : ExchangeRate)
    (h1 : getSymbolStr [c0, c1] symbols = some s1)
    (h2 : getSymbolStr [c1, c2] symbols = some s2)
    (h3 : getSymbolStr [c2, c0] symbols = some s3)
    (g1 : GetExchangeRate c0 c1 (Depth (http 0) s1 0).1 = some r1)
    (g2 : GetExchangeRate c1 c2 (Depth (http 1) s2 0).1 = some r2)
    (g3 : GetExchangeRate c2 c0 (Depth (http 2) s3 0).1 = some r3) :
    (Chain.Try http (c0 :: c1 :: c2 :: more) symbols).map Prod.fst =
        some (min (min r1.Max (r2.Max * r1.Rate)) (r3.Max * r2.Rate * r1.Rate)) ∧
      (r1.Max = 10 → r2.Max = 5 → r1.Rate = 0.5 → r3.Max = 100 → r2.Rate * r1.Rate = 0.4 →
        r1.Max = 10 ∧ r2.Max * r1.Rate = 2.5 ∧ r3.Max * r2.Rate * r1.Rate = 40 ∧
          (Chain.Try http (c0 :: c1 :: c2 :: more) symbols).map Prod.fst = some 2.5) := by
  rw [Try_eq_tryResult http symbols c0 c1 c2 more s1 s2 s3 r1 r2 r3 h1 h2 h3 g1 g2 g3,
    tryResult_three]
  refine ⟨rfl, ?_⟩
  intro e1 e2 e3 e4 e5
  have c2 : r2.Max * r1.Rate = 2.5 := by rw [e2, e3]; norm_num
  have c3 : r3.Max * r2.Rate * r1.Rate = 40 := by rw [mul_assoc, e4, e5]; norm_num
  refine ⟨e1, c2, c3, ?_⟩
  simp only [Option.map_some', c2, c3, e1]
  norm_num

theorem Try_bottleneck_volume_witness :
    (Chain.Try volumeHttp ["usdt", "eth", "btc"] triangleCatalog).map Prod.fst = some 2.5 := by
  have h := (Try_bottleneck_volume volumeHttp triangleCatalog "usdt" "eth" "btc" []
    "ethusdt" "btceth" "usdtbtc" _ _ _ (by decide) (by decide) (by decide)
    (GetExchangeRate_ask "usdt" "eth" _ 0.5 20 [] [] (by decide) rfl)
    (GetExchangeRate_ask "eth" "btc" _ 0.8 6.25 [] [] (by decide) rfl)
    (GetExchangeRate_ask "btc" "usdt" _ 1 100 [] [] (by decide) rfl)).2
  exact (h (by norm_num) (by norm_num) (by norm_num) (by norm_num) (by norm_num)).2.2.2

theorem Depth_error_zero (http : String → Int → Response) (symbolStr : String)
    (depthType : Int) (h : (Depth http symbolStr depthType).2 ≠ none) :
    (Depth http symbolStr depthType).1 = zeroDepth := by
  unfold Depth at h ⊢
  split
  · rfl
  · next statusCode decoded heq =>
    rw [heq] at h
    by_cases hc : statusCode ≠ 200
    · simp [hc]
    · simp only [hc, if_false] at h ⊢
      cases decoded with
      | none => rfl
      | some v =>
        obtain ⟨status, tick⟩ := v
        by_cases hs : status = "error"
        · simp [hs]
        · simp [hs] at h

theorem GetExchangeRate_zeroDepth (src dst : Currency) :
    (GetExchangeRate src dst zeroDepth).isSome = true := by
  unfold GetExchangeRate
  by_cases hm : MatchString ("^" ++ src) zeroDepth.SymbolStr = true <;>
    simp [hm, zeroDepth, topLoop]

theorem leg_isSome (http : String → Int → Response) (symbolStr : String) (src dst : Currency)
    (h : (Depth http symbolStr 0).2 ≠ none ∨
      (GetExchangeRate src dst (Depth http symbolStr 0).1).isSome = true) :
    ∃ er, GetExchangeRate src dst (Depth http symbolStr 0).1 = some er := by
  rcases h with h | h
  · rw [Depth_error_zero http symbolStr 0 h]
    exact Option.isSome_iff_exists.1 (GetExchangeRate_zeroDepth src dst)
  · exact Option.isSome_iff_exists.1 h

/-- C8 (counterexample): with every request failing, `Depth` returns an error
for each of the three legs of (usdt, btc, eth), and `Chain.Try` still returns a
pair of numbers. -/
theorem Try_fetch_error_counterexample :
    (Depth (failingHttp 0) "usdtbtc" 0).2 ≠ none ∧
      (Depth (failingHttp 1) "btceth" 0).2 ≠ none ∧
      (Depth (failingHttp 2) "ethusdt" 0).2 ≠ none ∧
      getSymbolStr ["usdt", "btc"] triangleCatalog = some "usdtbtc" ∧
      getSymbolStr ["btc", "eth"] triangleCatalog = some "btceth" ∧
      getSymbolStr ["eth", "usdt"] triangleCatalog = some "ethusdt" ∧
      (Chain.Try failingHttp ["usdt", "btc", "eth"] triangleCatalog).isSome = true := by
  decide

/-! ## The three-pair catalog and pair lookup -/

theorem GetTriangleChains_triangleCatalogWith (f1 f2 f3 : Bool)
    (pp1 ap1 pp2 ap2 pp3 ap3 : Nat) (part1 part2 part3 : String) :
    GetTriangleChains
        (triangleCatalogWith f1 f2 f3 pp1 ap1 pp2 ap2 pp3 ap3 part1 part2 part3) "usdt" =
      [["usdt", "btc", "eth"], ["usdt", "eth", "btc"],
        ["usdt", "eth", "btc"], ["usdt", "btc", "eth"]] := by
  cases f1 <;> cases f2 <;> cases f3 <;>
    simp [GetTriangleChains, triangleCatalogWith, orientedSymbol, startPairs, chainsOfPair,
      nonStartMembers, closingChains, Symbol.Has, Symbol.Members, hasLoop, List.filter]

/-- C9: for the catalog {usdt-btc, btc-eth, eth-usdt}, whatever the orientation
and the metadata of its entries, and reference usdt, the chains of
`GetTriangleChains` are exactly (usdt, btc, eth) and (usdt, eth, btc): a chain
is in the result if and only if it is one of these two, and the result without
repetitions has 2 elements. -/
theorem GetTriangleChains_usdt_btc_eth (f1 f2 f3 : Bool) (pp1 ap1 pp2 ap2 pp3 ap3 : Nat)
    (part1 part2 part3 : String) :
    (∀ c : Chain,
      c ∈ GetTriangleChains
          (triangleCatalogWith f1 f2 f3 pp1 ap1 pp2 ap2 pp3 ap3 part1 part2 part3) "usdt" ↔
        c = ["usdt", "btc", "eth"] ∨ c = ["usdt", "eth", "btc"]) ∧
    (GetTriangleChains
      (triangleCatalogWith f1 f2 f3 pp1 ap1 pp2 ap2 pp3 ap3 part1 part2 part3)
      "usdt").dedup.length = 2 := by
  rw [GetTriangleChains_triangleCatalogWith]
  constructor
  · intro c
    simp only [List.mem_cons, List.mem_singleton, List.not_mem_nil, or_false]
    tauto
  · decide

theorem getSymbolStr_pair (a b : Currency) (symbols : List Symbol) :
    getSymbolStr [a, b] symbols =
      some (match symbols.find? (fun s => s.Has a && s.Has b) with
        | some s => s.Symbol
        | none => "") := by
  induction symbols with
  | nil => rfl
  | cons s rest ih =>
    cases ha : s.Has a <;> cases hb : s.Has b <;>
      simp [getSymbolStr, List.find?, ha, hb, ih]

theorem has_both_iff (s : Symbol) (a b : Currency) (hab : a ≠ b) :
    (s.Has a && s.Has b) =
      decide ((s.BaseCurrency = a ∧ s.QuoteCurrency = b) ∨
        (s.BaseCurrency = b ∧ s.QuoteCurrency = a)) := by
  rw [Bool.eq_iff_iff]
  simp only [Bool.and_eq_true, has_iff, decide_eq_true_eq]
  constructor
  · rintro ⟨h1 | h1, h2 | h2⟩
    · exact absurd (h1.symm.trans h2) hab
    · exact Or.inl ⟨h1, h2⟩
    · exact Or.inr ⟨h2, h1⟩
    · exact absurd (h1.symm.trans h2) hab
  · rintro (⟨h1, h2⟩ | ⟨h1, h2⟩)
    · exact ⟨Or.inl h1, Or.inr h2⟩
    · exact ⟨Or.inr h2, Or.inl h1⟩

theorem Symbol_ne_empty (s : Symbol) (h : s.BaseCurrency ≠ s.QuoteCurrency) :
    s.Symbol ≠ "" := by
  intro e
  have hd : s.BaseCurrency.data ++ s.QuoteCurrency.data = [] := by
    have := congrArg String.data e
    rwa [Symbol.Symbol, String.data_append] at this
  obtain ⟨h1, h2⟩ := List.append_eq_nil.1 hd
  exact h (String.ext (h1.trans h2.symm))

/-- C10: `getSymbolStr` implements LookupPair.  For distinct currencies a, b it
returns the base token followed by the quote token of the first catalog entry
whose member set is {a, b}, and the empty string when there is none; the result
is the empty string exactly when no catalog entry contains both a and b; and
an entry containing both that is preceded by no such entry is the one used. -/
theorem getSymbolStr_implements_LookupPair (catalog : List Symbol) (a b : Currency)
    (hab : a ≠ b) :
    getSymbolStr [a, b] catalog =
        some (match LookupPair catalog a b with
          | some s => s.BaseCurrency ++ s.QuoteCurrency
          | none => "") ∧
      (getSymbolStr [a, b] catalog = some "" ↔
        ∀ s ∈ catalog, ¬ (s.Has a = true ∧ s.Has b = true)) ∧
      (∀ before s after, catalog = before ++ s :: after →
        (∀ t ∈ before, ¬ (t.Has a = true ∧ t.Has b = true)) →
        s.Has a = true → s.Has b = true →
        getSymbolStr [a, b] catalog = some (s.BaseCurrency ++ s.QuoteCurrency)) := by
  have hfun : (fun s : Symbol => s.Has a && s.Has b) =
      fun s => decide ((s.BaseCurrency = a ∧ s.QuoteCurrency = b) ∨
        (s.BaseCurrency = b ∧ s.QuoteCurrency = a)) :=
    funext fun s => has_both_iff s a b hab
  have hlook : LookupPair catalog a b = catalog.find? (fun s => s.Has a && s.Has b) := by
    rw [hfun]
    rfl
  rw [getSymbolStr_pair, hlook]
  refine ⟨rfl, ?_, ?_⟩
  swap
  · intro before s after hcat hbefore hsa hsb
    have hf : catalog.find? (fun s => s.Has a && s.Has b) = some s := by
      rw [List.find?_eq_some]
      refine ⟨by simp [hsa, hsb], before, after, hcat, ?_⟩
      intro t ht
      have := hbefore t ht
      cases h1 : t.Has a <;> cases h2 : t.Has b <;> simp_all
    rw [hf]
    rfl
  cases hf : catalog.find? (fun s => s.Has a && s.Has b) with
  | none =>
    simp only [true_iff]
    intro s hs hboth
    have := List.find?_eq_none.1 hf s hs
    simp [hboth.1, hboth.2] at this
  | some s =>
    have hp := List.find?_some hf
    have hm := List.mem_of_find?_eq_some hf
    simp only [Bool.and_eq_true] at hp
    have hne : s.BaseCurrency ≠ s.QuoteCurrency := by
      intro e
      have h1 := (has_iff s a).1 hp.1
      have h2 := (has_iff s b).1 hp.2
      rw [← e] at h1 h2
      exact hab ((h1.elim id id).symm.trans (h2.elim id id))
    constructor
    · intro h
      simp only [Option.some.injEq] at h
      exact absurd h (Symbol_ne_empty s hne)
    · intro h
      exact absurd hp (h s hm)

theorem getSymbolStr_implements_LookupPair_witness :
    getSymbolStr ["btc", "usdt"] triangleCatalog =
        some (match LookupPair triangleCatalog "btc" "usdt" with
          | some s => s.BaseCurrency ++ s.QuoteCurrency
          | none => "") ∧
      (getSymbolStr ["btc", "usdt"] triangleCatalog = some "" ↔
        ∀ s ∈ triangleCatalog, ¬ (s.Has "btc" = true ∧ s.Has "usdt" = true)) ∧
      (∀ before s after, triangleCatalog = before ++ s :: after →
        (∀ t ∈ before, ¬ (t.Has "btc" = true ∧ t.Has "usdt" = true)) →
        s.Has "btc" = true → s.Has "usdt" = true →
        getSymbolStr ["btc", "usdt"] triangleCatalog =
          some (s.BaseCurrency ++ s.QuoteCurrency)) :=
  getSymbolStr_implements_LookupPair triangleCatalog "btc" "usdt" (by decide)

/-! ## Pair catalog -/

/-- C11: `s.Has c` is true if and only if `c` is the base currency or the
quote currency of `s`. -/
theorem Has_iff_base_or_quote (s : Symbol) (c : Currency) :
    s.Has c = true ↔ c = s.BaseCurrency ∨ c = s.QuoteCurrency := by
  rw [has_iff]
  constructor <;> rintro (h | h)
  exacts [Or.inl h.symm, Or.inr h.symm, Or.inl h.symm, Or.inr h.symm]

/-- C12: `s.Symbol()` is the base token followed by the quote token: its length
(in characters and in bytes) is the sum of the two token lengths, the base
token is a prefix and what follows the base token is the quote token. -/
theorem Symbol_is_base_then_quote (s : Symbol) :
    s.Symbol = s.BaseCurrency ++ s.QuoteCurrency ∧
      s.Symbol.length = s.BaseCurrency.length + s.QuoteCurrency.length ∧
      s.Symbol.utf8ByteSize = s.BaseCurrency.utf8ByteSize + s.QuoteCurrency.utf8ByteSize ∧
      s.BaseCurrency.data <+: s.Symbol.data ∧
      s.Symbol.data.drop s.BaseCurrency.length = s.QuoteCurrency.data := by
  refine ⟨rfl, ?_, ?_, ?_, ?_⟩
  · simp [Symbol.Symbol]
  · simp [Symbol.Symbol, String.utf8ByteSize, String.utf8ByteSize.go_eq, String.utf8Len_append]
  · exact ⟨s.QuoteCurrency.data, by simp [Symbol.Symbol]⟩
  · show (s.BaseCurrency ++ s.QuoteCurrency).data.drop s.BaseCurrency.data.length =
      s.QuoteCurrency.data
    rw [String.data_append]
    simp

/-- C17: `getSymbolStr` does not depend on the direction of the leg. -/
theorem getSymbolStr_symmetric (catalog : List Symbol) (a b : Currency) :
    getSymbolStr [a, b] catalog = getSymbolStr [b, a] catalog := by
  rw [getSymbolStr_pair, getSymbolStr_pair]
  have hfun : (fun s : Symbol => s.Has a && s.Has b) = fun s => s.Has b && s.Has a :=
    funext fun s => Bool.and_comm _ _
  rw [hfun]

/-! ## Top of book -/

theorem topLoop_head (data : List PriceAmount) :
    topLoop data 1 0 0 = topLoop data.head?.toList 1 0 0 := by
  cases data with
  | nil => rfl
  | cons v rest =>
    simp only [List.head?_cons, Option.toList, topLoop]
    cases v[0]? <;> cases v[1]? <;> simp [topLoop_zero, topLoop]

/-- C13: `GetExchangeRate` samples only the top of the book.  Two snapshots
with the same symbol, the same first bid entry and the same first ask entry
give the same result, hence the same Rate and Max, whatever their deeper
levels. -/
theorem GetExchangeRate_top_only (src dst : Currency) (d1 d2 : MarketDepth)
    (hsym : d1.SymbolStr = d2.SymbolStr)
    (hb : d1.Bids.head? = d2.Bids.head?) (ha : d1.Asks.head? = d2.Asks.head?) :
    GetExchangeRate src dst d1 = GetExchangeRate src dst d2 ∧
      (GetExchangeRate src dst d1).map ExchangeRate.Rate =
        (GetExchangeRate src dst d2).map ExchangeRate.Rate ∧
      (GetExchangeRate src dst d1).map ExchangeRate.Max =
        (GetExchangeRate src dst d2).map ExchangeRate.Max := by
  have h : GetExchangeRate src dst d1 = GetExchangeRate src dst d2 := by
    unfold GetExchangeRate
    simp only [hsym]
    cases hm : MatchString ("^" ++ src) d2.SymbolStr
    · simp only [Bool.false_eq_true, if_false]
      rw [topLoop_head d1.Asks, topLoop_head d2.Asks, ha]
    · simp only [if_true]
      rw [topLoop_head d1.Bids, topLoop_head d2.Bids, hb]
  exact ⟨h, by rw [h], by rw [h]⟩

theorem GetExchangeRate_top_only_witness :
    btcusdtDepth.Bids ≠ btcusdtDepthDeeper.Bids ∧
      GetExchangeRate "btc" "usdt" btcusdtDepth =
        GetExchangeRate "btc" "usdt" btcusdtDepthDeeper :=
  ⟨by simp [btcusdtDepth, btcusdtDepthDeeper],
    (GetExchangeRate_top_only "btc" "usdt" btcusdtDepth btcusdtDepthDeeper rfl rfl rfl).1⟩

/-! ## Direction detection -/

/-- C15: the prefix test can misclassify.  For the symbol "usdcusd" (base usdc,
quote usd) the conversion from the quote currency usd takes the bid branch:
Rate = amount / sum and Max = amount of the first bid, which differs from the
ask-side values.  Conversely, when `from` is the base currency of the
snapshot's symbol the bid branch is always taken. -/
theorem GetExchangeRate_prefix_misclassifies :
    (∃ (s : Symbol) (depth : MarketDepth) (price amt aprice aamt : ℚ),
      s.BaseCurrency ≠ s.QuoteCurrency ∧
      plainToken s.BaseCurrency = true ∧ plainToken s.QuoteCurrency = true ∧
      depth.SymbolStr = s.Symbol ∧
      depth.Bids.head? = some [price, amt] ∧ depth.Asks.head? = some [aprice, aamt] ∧
      MatchString ("^" ++ s.QuoteCurrency) depth.SymbolStr = true ∧
      GetExchangeRate s.QuoteCurrency s.BaseCurrency depth =
        some { From := s.QuoteCurrency, To := s.BaseCurrency,
               Rate := amt / (price * amt), Max := amt } ∧
      amt / (price * amt) ≠ (aprice * aamt) / aamt ∧ amt ≠ aprice * aamt) ∧
    (∀ (s : Symbol) (dst : Currency) (depth : MarketDepth) (price amt : ℚ) (extra : List ℚ)
        (rest : List PriceAmount),
      plainToken s.BaseCurrency = true → depth.SymbolStr = s.Symbol →
      depth.Bids = (price :: amt :: extra) :: rest →
      MatchString ("^" ++ s.BaseCurrency) depth.SymbolStr = true ∧
        GetExchangeRate s.BaseCurrency dst depth =
          some { From := s.BaseCurrency, To := dst,
                 Rate := amt / (price * amt), Max := amt }) := by
  constructor
  · refine ⟨usdcusdSymbol, usdcusdDepth, 1.001, 40, 1.002, 70, by decide, by decide,
      by decide, by decide, rfl, rfl, by decide, ?_, by norm_num, by norm_num⟩
    exact GetExchangeRate_bid "usd" "usdc" usdcusdDepth 1.001 40 [] [] (by decide) rfl
  · intro s dst depth price amt extra rest _ hsym hb
    have hm : MatchString ("^" ++ s.BaseCurrency) depth.SymbolStr = true :=
      (MatchString_caret s.BaseCurrency depth.SymbolStr).2 ⟨s.QuoteCurrency, hsym⟩
    exact ⟨hm, GetExchangeRate_bid s.BaseCurrency dst depth price amt extra rest hm hb⟩

theorem GetExchangeRate_prefix_misclassifies_witness :
    MatchString ("^" ++ "btc") btcusdtDepth.SymbolStr = true ∧
      GetExchangeRate "btc" "usdt" btcusdtDepth =
        some { From := "btc", To := "usdt", Rate := 2 / (50000 * 2), Max := 2 } :=
  GetExchangeRate_prefix_misclassifies.2 btcusdtSymbol "usdt" btcusdtDepth 50000 2 []
    [[49990, 7]] (by decide) (by decide) rfl

/-! ## Resolution of the legs of an enumerated chain -/

theorem Symbol_eq_empty_iff (s : Symbol) :
    s.Symbol = "" ↔ s.BaseCurrency = "" ∧ s.QuoteCurrency = "" := by
  constructor
  · intro e
    have hd : s.BaseCurrency.data ++ s.QuoteCurrency.data = [] := by
      have := congrArg String.data e
      rwa [Symbol.Symbol, String.data_append] at this
    obtain ⟨h1, h2⟩ := List.append_eq_nil.1 hd
    exact ⟨String.ext h1, String.ext h2⟩
  · rintro ⟨h1, h2⟩
    rw [Symbol.Symbol, h1, h2]
    rfl

theorem getSymbolStr_resolves (symbols : List Symbol) (a b : Currency)
    (h : ∃ t ∈ symbols, t.Has a = true ∧ t.Has b = true) :
    ∃ s ∈ symbols, s.Has a = true ∧ s.Has b = true ∧
      getSymbolStr [a, b] symbols = some s.Symbol := by
  rw [getSymbolStr_pair]
  cases hf : symbols.find? (fun s => s.Has a && s.Has b) with
  | none =>
    obtain ⟨t, ht, ha, hb⟩ := h
    have := List.find?_eq_none.1 hf t ht
    simp [ha, hb] at this
  | some s =>
    have hp := List.find?_some hf
    simp only [Bool.and_eq_true] at hp
    exact ⟨s, List.mem_of_find?_eq_some hf, hp.1, hp.2, rfl⟩

theorem GetTriangleChains_legs (symbols : List Symbol) (start : Currency) (c : Chain)
    (hc : c ∈ GetTriangleChains symbols start) :
    ∃ x y, c = [start, x, y] ∧
      (∃ s ∈ symbols, s.Has start = true ∧ s.Has x = true) ∧
      (∃ s ∈ symbols, s.Has x = true ∧ s.Has y = true) ∧
      (∃ s ∈ symbols, s.Has y = true ∧ s.Has start = true) := by
  obtain ⟨s, s1, m0, m1, hp, hm, hcl⟩ := (mem_GetTriangleChains symbols start c).1 hc
  obtain ⟨hs, hs1, -, hst, hst1⟩ := (mem_startPairs symbols start s s1).1 hp
  obtain ⟨-, -, h0, h1⟩ := nonStartMembers_eq_pair s s1 start m0 m1 hst hst1 hm
  obtain ⟨⟨t, ht, ht0, ht1⟩, hcc⟩ := (mem_closingChains symbols start m0 m1 c).1 hcl
  rcases hcc with e | e
  · exact ⟨m0, m1, e, ⟨s, hs, hst, h0⟩, ⟨t, ht, ht0, ht1⟩, ⟨s1, hs1, h1, hst1⟩⟩
  · exact ⟨m1, m0, e, ⟨s1, hs1, hst1, h1⟩, ⟨t, ht, ht1, ht0⟩, ⟨s, hs, h0, hst⟩⟩

/-- C16 (counterexample): on a catalog holding an entry with empty base and
quote tokens, the chain (usdt, "", "") is enumerated and `getSymbolStr` on its
middle leg ("", "") returns the empty string, the same value as the not-found
result. -/
theorem enumerated_leg_counterexample :
    ["usdt", "", ""] ∈ GetTriangleChains emptyTokenCatalog "usdt" ∧
      Chain.Pairs ["usdt", "", ""] = some [["usdt", ""], ["", ""], ["", "usdt"]] ∧
      getSymbolStr ["", ""] emptyTokenCatalog = some "" := by
  decide

/-- C16 (amended): every enumerated chain has three elements, `Pairs` returns
its legs (c0,c1), (c1,c2), (c2,c0) in that order, and on each leg
`getSymbolStr` returns the `Symbol()` of a catalog entry containing both
currencies of the leg; that string is non-empty, hence different from the
not-found result, unless the entry has empty base and quote tokens. -/
theorem enumerated_legs_resolve (symbols : List Symbol) (start : Currency) (c : Chain)
    (hc : c ∈ GetTriangleChains symbols start) :
    ∃ c1 c2, c = [start, c1, c2] ∧
      Chain.Pairs c = some [[start, c1], [c1, c2], [c2, start]] ∧
      ∀ a b, [a, b] ∈ [[start, c1], [c1, c2], [c2, start]] →
        ∃ s ∈ symbols, s.Has a = true ∧ s.Has b = true ∧
          getSymbolStr [a, b] symbols = some s.Symbol ∧
          (¬ (s.BaseCurrency = "" ∧ s.QuoteCurrency = "") → s.Symbol ≠ "") := by
  obtain ⟨x, y, e, l1, l2, l3⟩ := GetTriangleChains_legs symbols start c hc
  subst e
  refine ⟨x, y, rfl, Pairs_of_three start x y [], ?_⟩
  intro a b hab
  have key : ∃ t ∈ symbols, t.Has a = true ∧ t.Has b = true := by
    simp only [List.mem_cons, List.cons.injEq, and_true, List.mem_singleton,
      List.not_mem_nil, or_false] at hab
    rcases hab with ⟨rfl, rfl⟩ | ⟨rfl, rfl⟩ | ⟨rfl, rfl⟩
    exacts [l1, l2, l3]
  obtain ⟨s, hs, ha, hb, hg⟩ := getSymbolStr_resolves symbols a b key
  exact ⟨s, hs, ha, hb, hg, fun hne he => hne ((Symbol_eq_empty_iff s).1 he)⟩

theorem enumerated_legs_resolve_witness :
    ∃ c1 c2, (["usdt", "btc", "eth"] : Chain) = ["usdt", c1, c2] ∧
      Chain.Pairs ["usdt", "btc", "eth"] = some [["usdt", c1], [c1, c2], [c2, "usdt"]] ∧
      ∀ a b, [a, b] ∈ [["usdt", c1], [c1, c2], [c2, "usdt"]] →
        ∃ s ∈ triangleCatalog, s.Has a = true ∧ s.Has b = true ∧
          getSymbolStr [a, b] triangleCatalog = some s.Symbol ∧
          (¬ (s.BaseCurrency = "" ∧ s.QuoteCurrency = "") → s.Symbol ≠ "") :=
  enumerated_legs_resolve triangleCatalog "usdt" ["usdt", "btc", "eth"] (by decide)

/-! ## Mirrored emission -/

theorem count_mirror_pair (start x y m0 m1 : Currency) :
    List.count [start, x, y] [[start, m0, m1], [start, m1, m0]] =
      List.count [start, y, x] [[start, m0, m1], [start, m1, m0]] := by
  by_cases e : x = y
  · subst e
    rfl
  · have e2 : ¬ y = x := fun h => e h.symm
    by_cases a : m0 = x <;> by_cases b : m1 = y <;> by_cases c : m0 = y <;>
      by_cases d : m1 = x <;> simp_all [List.count_cons]

theorem closingChains_mirrored (symbols : List Symbol) (start m0 m1 x y : Currency) :
    Even (closingChains symbols start m0 m1).length ∧
      List.count [start, x, y] (closingChains symbols start m0 m1) =
        List.count [start, y, x] (closingChains symbols start m0 m1) := by
  unfold closingChains
  induction symbols with
  | nil => simp
  | cons s rest ih =>
    rw [List.flatMap_cons, List.length_append, List.count_append, List.count_append]
    obtain ⟨ih1, ih2⟩ := ih
    cases h : (s.Has m0 && s.Has m1)
    · simp only [Bool.false_eq_true, if_false, List.length_nil, zero_add, List.count_nil]
      exact ⟨ih1, ih2⟩
    · simp only [if_true]
      refine ⟨Even.add ⟨1, rfl⟩ ih1, ?_⟩
      rw [count_mirror_pair, ih2]

theorem chainsOfPair_mirrored (symbols : List Symbol) (start x y : Currency)
    (p : Symbol × Symbol) :
    Even (chainsOfPair symbols start p).length ∧
      List.count [start, x, y] (chainsOfPair symbols start p) =
        List.count [start, y, x] (chainsOfPair symbols start p) := by
  unfold chainsOfPair
  split
  · exact closingChains_mirrored symbols start _ _ x y
  · simp

theorem flatMap_chainsOfPair_mirrored (symbols : List Symbol) (start x y : Currency)
    (l : List (Symbol × Symbol)) :
    Even (l.flatMap (chainsOfPair symbols start)).length ∧
      List.count [start, x, y] (l.flatMap (chainsOfPair symbols start)) =
        List.count [start, y, x] (l.flatMap (chainsOfPair symbols start)) := by
  induction l with
  | nil => simp
  | cons p rest ih =>
    rw [List.flatMap_cons, List.length_append, List.count_append, List.count_append]
    obtain ⟨h1, h2⟩ := chainsOfPair_mirrored symbols start x y p
    exact ⟨Even.add h1 ih.1, by rw [h2, ih.2]⟩

theorem startPairs_perm (l l' : List Symbol) (start : Currency) (h : l.Perm l') :
    (startPairs l start).Perm (startPairs l' start) := by
  unfold startPairs
  exact (h.flatMap_right _).trans
    (List.Perm.flatMap_left l' fun s _ => h.flatMap_right _)

theorem chainsOfPair_perm (l l' : List Symbol) (start : Currency) (h : l.Perm l')
    (p : Symbol × Symbol) :
    (chainsOfPair l start p).Perm (chainsOfPair l' start p) := by
  unfold chainsOfPair
  split
  · exact h.flatMap_right _
  · exact List.Perm.refl _

/-- The multiset of enumerated chains does not depend on the catalog order. -/
theorem GetTriangleChains_perm (l l' : List Symbol) (start : Currency) (h : l.Perm l') :
    (GetTriangleChains l start).Perm (GetTriangleChains l' start) := by
  unfold GetTriangleChains
  exact ((startPairs_perm l l' start h).flatMap_right _).trans
    (List.Perm.flatMap_left _ fun p _ => chainsOfPair_perm l l' start h p)

theorem GetTriangleChains_triangle (s1 s2 s3 : Symbol) (A B C : Currency)
    (hAB : A ≠ B) (hBC : B ≠ C) (hCA : C ≠ A)
    (h1 : s1.Has A = true ∧ s1.Has B = true)
    (h2 : s2.Has B = true ∧ s2.Has C = true)
    (h3 : s3.Has C = true ∧ s3.Has A = true) :
    GetTriangleChains [s1, s2, s3] A = [[A, B, C], [A, C, B], [A, C, B], [A, B, C]] := by
  obtain ⟨b1, q1, pp1, ap1, pt1⟩ := s1
  obtain ⟨b2, q2, pp2, ap2, pt2⟩ := s2
  obtain ⟨b3, q3, pp3, ap3, pt3⟩ := s3
  have hBA : B ≠ A := fun e => hAB e.symm
  have hCB : C ≠ B := fun e => hBC e.symm
  have hAC : A ≠ C := fun e => hCA e.symm
  simp only [has_iff] at h1 h2 h3
  obtain ⟨h1a, h1b⟩ := h1
  obtain ⟨h2a, h2b⟩ := h2
  obtain ⟨h3a, h3b⟩ := h3
  rcases h1a with e1 | e1 <;> rcases h1b with e2 | e2 <;>
    rcases h2a with e3 | e3 <;> rcases h2b with e4 | e4 <;>
    rcases h3a with e5 | e5 <;> rcases h3b with e6 | e6 <;>
    first
      | exact absurd (e1.symm.trans e2) hAB
      | exact absurd (e3.symm.trans e4) hBC
      | exact absurd (e5.symm.trans e6) hCA
      | (subst e1 e2 e3 e4 e5 e6
         simp [GetTriangleChains, startPairs, chainsOfPair, nonStartMembers, closingChains,
           Symbol.Has, Symbol.Members, hasLoop, List.filter, hAB, hBC, hCA, hBA, hCB, hAC])

/-- C14: `GetTriangleChains` does not deduplicate and emits chains in mirrored
pairs.  For every catalog and start the result has even length and
(start, x, y) occurs as often as (start, y, x).  For a catalog made of exactly
three symbols A-B, B-C, C-A, in any order and orientation, with A, B, C
pairwise distinct and reference A, the result has exactly 4 chains, in which
(A, B, C) and (A, C, B) each occur twice. -/
theorem GetTriangleChains_mirrored :
    (∀ (symbols : List Symbol) (start : Currency),
      Even (GetTriangleChains symbols start).length ∧
        ∀ x y, List.count [start, x, y] (GetTriangleChains symbols start) =
          List.count [start, y, x] (GetTriangleChains symbols start)) ∧
    (∀ (symbols : List Symbol) (s1 s2 s3 : Symbol) (A B C : Currency),
      A ≠ B → B ≠ C → C ≠ A → symbols.Perm [s1, s2, s3] →
      (s1.Has A = true ∧ s1.Has B = true) →
      (s2.Has B = true ∧ s2.Has C = true) →
      (s3.Has C = true ∧ s3.Has A = true) →
      (GetTriangleChains symbols A).length = 4 ∧
        List.count [A, B, C] (GetTriangleChains symbols A) = 2 ∧
        List.count [A, C, B] (GetTriangleChains symbols A) = 2) := by
  constructor
  · intro symbols start
    exact ⟨(flatMap_chainsOfPair_mirrored symbols start start start _).1,
      fun x y => (flatMap_chainsOfPair_mirrored symbols start x y _).2⟩
  · intro symbols s1 s2 s3 A B C hAB hBC hCA hperm h1 h2 h3
    have hp := GetTriangleChains_perm symbols [s1, s2, s3] A hperm
    have he := GetTriangleChains_triangle s1 s2 s3 A B C hAB hBC hCA h1 h2 h3
    have hCB : C ≠ B := fun e => hBC e.symm
    have hc : ∀ c : Chain, List.count c (GetTriangleChains symbols A) =
        List.count c (GetTriangleChains [s1, s2, s3] A) := fun c => hp.countP_eq _
    rw [hp.length_eq, hc, hc, he]
    refine ⟨rfl, ?_, ?_⟩ <;> simp [List.count_cons, hBC, hCB]

theorem GetTriangleChains_mirrored_witness :
    (GetTriangleChains triangleCatalog "usdt").length = 4 ∧
      List.count ["usdt", "btc", "eth"] (GetTriangleChains triangleCatalog "usdt") = 2 ∧
      List.count ["usdt", "eth", "btc"] (GetTriangleChains triangleCatalog "usdt") = 2 :=
  GetTriangleChains_mirrored.2 triangleCatalog
    { BaseCurrency := "usdt", QuoteCurrency := "btc", PricePrecision := 2,
      AmountPrecision := 4, SymbolPartition := "main" }
    { BaseCurrency := "btc", QuoteCurrency := "eth", PricePrecision := 6,
      AmountPrecision := 4, SymbolPartition := "main" }
    { BaseCurrency := "eth", QuoteCurrency := "usdt", PricePrecision := 2,
      AmountPrecision := 4, SymbolPartition := "main" }
    "usdt" "btc" "eth" (by decide) (by decide) (by decide) (List.Perm.refl _)
    (by decide) (by decide) (by decide)

/-! ## Rounding lemmas -/

theorem roundEven_error (y : ℚ) : |(roundEven y : ℚ) - y| ≤ 1 / 2 := by
  have h1 : (⌊y⌋ : ℚ) ≤ y := Int.floor_le y
  have h2 : y < ⌊y⌋ + 1 := Int.lt_floor_add_one y
  unfold roundEven
  simp only
  split_ifs with a b c
  · rw [abs_le]; constructor <;> linarith
  · rw [abs_le]; push_cast; constructor <;> linarith
  · rw [abs_le]; constructor <;> linarith
  · have hb : y - ⌊y⌋ = 1 / 2 := le_antisymm (not_lt.1 b) (not_lt.1 a)
    rw [abs_le]; push_cast; constructor <;> linarith

theorem roundEven_of_near (y : ℚ) (n : ℤ) (h1 : (n : ℚ) - 1 / 2 < y) (h2 : y < n + 1 / 2) :
    roundEven y = n := by
  have f1 : (⌊y⌋ : ℚ) ≤ y := Int.floor_le y
  have f2 : y < ⌊y⌋ + 1 := Int.lt_floor_add_one y
  have hm : ⌊y⌋ = n ∨ ⌊y⌋ = n - 1 := by
    have a : (⌊y⌋ : ℚ) < n + 1 := by linarith
    have b : (n : ℚ) - 2 < ⌊y⌋ := by linarith
    have a' : ⌊y⌋ < n + 1 := by exact_mod_cast a
    have b' : n - 2 < ⌊y⌋ := by exact_mod_cast b
    omega
  unfold roundEven
  simp only
  rcases hm with e | e
  · rw [e]
    have : y - (n : ℚ) < 1 / 2 := by linarith
    rw [if_pos this]
  · rw [e]
    have h3 : ¬ (y - ((n - 1 : ℤ) : ℚ) < 1 / 2) := by push_cast; linarith
    have h4 : 1 / 2 < y - ((n - 1 : ℤ) : ℚ) := by push_cast; linarith
    simp only [h3, h4, if_false, if_true]
    ring

theorem log2_of_bracket (x : ℚ) (e : ℤ) (hx : 0 < x) (hlo : (2 : ℚ) ^ e ≤ x)
    (hhi : x < (2 : ℚ) ^ (e + 1)) : Int.log 2 |x| = e := by
  rw [abs_of_pos hx]
  have h1 : e ≤ Int.log 2 x := by
    rw [← Int.zpow_le_iff_le_log (by norm_num) hx]
    exact_mod_cast hlo
  have h2 : Int.log 2 x < e + 1 := by
    rw [← Int.lt_zpow_iff_log_lt (by norm_num) hx]
    exact_mod_cast hhi
  omega

theorem round64_of_bracket (x q : ℚ) (e n : ℤ) (hx : 0 < x) (hlo : (2 : ℚ) ^ e ≤ x)
    (hhi : x < (2 : ℚ) ^ (e + 1)) (hq : q = (2 : ℚ) ^ (max e (-1022) - 52))
    (h1 : (n : ℚ) - 1 / 2 < x / q) (h2 : x / q < n + 1 / 2) :
    round64 x = n * q := by
  have hQ : quantum64 x = q := by
    unfold quantum64
    rw [log2_of_bracket x e hx hlo hhi, hq]
  unfold round64
  rw [hQ, roundEven_of_near (x / q) n h1 h2]

theorem round64_zero : round64 0 = 0 := by
  simp [round64, roundEven]

theorem round64_withinRel (x : ℚ) (h : (2 : ℚ) ^ (-1022 : ℤ) ≤ |x|) :
    withinRel round64 ((2 : ℚ) ^ (-53 : ℤ)) x := by
  have hx : 0 < |x| := lt_of_lt_of_le (by positivity) h
  have hlog : (-1022 : ℤ) ≤ Int.log 2 |x| := by
    rw [← Int.zpow_le_iff_le_log (by norm_num) hx]
    exact_mod_cast h
  have hqe : quantum64 x = (2 : ℚ) ^ (Int.log 2 |x| - 52) := by
    unfold quantum64
    rw [max_eq_left hlog]
  have hqpos : 0 < quantum64 x := by rw [hqe]; positivity
  have hle : (2 : ℚ) ^ (Int.log 2 |x|) ≤ |x| := by
    have := Int.zpow_log_le_self (b := 2) (r := |x|) (by norm_num) hx
    exact_mod_cast this
  have herr := roundEven_error (x / quantum64 x)
  have h1 : |round64 x - x| = |(roundEven (x / quantum64 x) : ℚ) - x / quantum64 x| *
      quantum64 x := by
    unfold round64
    rw [← abs_of_pos hqpos, ← abs_mul, abs_of_pos hqpos]
    congr 1
    field_simp
  show |round64 x - x| ≤ (2 : ℚ) ^ (-53 : ℤ) * |x|
  rw [h1]
  calc |(roundEven (x / quantum64 x) : ℚ) - x / quantum64 x| * quantum64 x
      ≤ 1 / 2 * quantum64 x := by
        exact mul_le_mul_of_nonneg_right herr hqpos.le
    _ = (2 : ℚ) ^ (-53 : ℤ) * (2 : ℚ) ^ (Int.log 2 |x|) := by
        rw [hqe, show (Int.log 2 |x| - 52) = (Int.log 2 |x|) + (-52 : ℤ) by ring,
          zpow_add₀ (by norm_num : (2 : ℚ) ≠ 0)]
        norm_num
        ring
    _ ≤ (2 : ℚ) ^ (-53 : ℤ) * |x| := by
        exact mul_le_mul_of_nonneg_left hle (by positivity)

/-! ## The rounded code -/

theorem topLoopFl_id (data : List PriceAmount) (max : Int) (amount sum : ℚ) :
    topLoopFl id data max amount sum = topLoop data max amount sum := by
  induction data generalizing max amount sum with
  | nil => rfl
  | cons v rest ih =>
    unfold topLoopFl topLoop
    split_ifs
    · rfl
    · cases v[0]? <;> cases v[1]? <;> simp [ih]

theorem GetExchangeRateFl_id (src dst : Currency) (depth : MarketDepth) :
    GetExchangeRateFl id src dst depth = GetExchangeRate src dst depth := by
  unfold GetExchangeRateFl GetExchangeRate
  simp only [topLoopFl_id, id]

theorem topLoopFl_zero (fl : ℚ → ℚ) (data : List PriceAmount) (amount sum : ℚ) :
    topLoopFl fl data 0 amount sum = some (amount, sum) := by
  cases data <;> simp [topLoopFl]

theorem topLoopFl_one (fl : ℚ → ℚ) (price amt : ℚ) (extra : List ℚ)
    (rest : List PriceAmount) :
    topLoopFl fl ((price :: amt :: extra) :: rest) 1 0 0 =
      some (fl (0 + amt), fl (0 + fl (price * amt))) := by
  simp [topLoopFl, topLoopFl_zero]

theorem GetExchangeRateFl_bid (fl : ℚ → ℚ) (src dst : Currency) (depth : MarketDepth)
    (price amt : ℚ) (extra : List ℚ) (rest : List PriceAmount)
    (hm : MatchString ("^" ++ src) depth.SymbolStr = true)
    (hb : depth.Bids = (price :: amt :: extra) :: rest) :
    GetExchangeRateFl fl src dst depth =
      some { From := src, To := dst,
             Rate := fl (fl (0 + amt) / fl (0 + fl (price * amt))),
             Max := fl (0 + amt) } := by
  simp [GetExchangeRateFl, hm, hb, topLoopFl_one]

theorem GetExchangeRateFl_ask (fl : ℚ → ℚ) (src dst : Currency) (depth : MarketDepth)
    (price amt : ℚ) (extra : List ℚ) (rest : List PriceAmount)
    (hm : MatchString ("^" ++ src) depth.SymbolStr = false)
    (ha : depth.Asks = (price :: amt :: extra) :: rest) :
    GetExchangeRateFl fl src dst depth =
      some { From := src, To := dst,
             Rate := fl (fl (0 + fl (price * amt)) / fl (0 + amt)),
             Max := fl (0 + fl (price * amt)) } := by
  simp [GetExchangeRateFl, hm, ha, topLoopFl_one]

theorem round64_eq_self (x : ℚ) (e n : ℤ) (hx : 0 < x) (hlo : (2 : ℚ) ^ e ≤ x)
    (hhi : x < (2 : ℚ) ^ (e + 1)) (he : -1022 ≤ e) (hn : x = n * (2 : ℚ) ^ (e - 52)) :
    round64 x = x := by
  have hq : (0 : ℚ) < (2 : ℚ) ^ (e - 52) := by positivity
  have hdiv : x / (2 : ℚ) ^ (e - 52) = n := by
    rw [hn]
    field_simp
  rw [round64_of_bracket x ((2 : ℚ) ^ (e - 52)) e n hx hlo hhi (by rw [max_eq_left he])
    (by rw [hdiv]; linarith) (by rw [hdiv]; linarith)]
  exact hn.symm

theorem withinRel_bounds (fl : ℚ → ℚ) (u x : ℚ) (hx : 0 < x) (h : withinRel fl u x) :
    x * (1 - u) ≤ fl x ∧ fl x ≤ x * (1 + u) := by
  have h2 := abs_le.1 h
  rw [abs_of_pos hx] at h2
  constructor <;> linarith [h2.1, h2.2]

theorem withinRel_pos (fl : ℚ → ℚ) (u x : ℚ) (hx : 0 < x) (hu : u < 1)
    (h : withinRel fl u x) : 0 < fl x := by
  have h1 := (withinRel_bounds fl u x hx h).1
  have : 0 < x * (1 - u) := mul_pos hx (by linarith)
  linarith

/-- The bid-side quotient `fl (a / fl (p * a))` lies within the factors
(1 - u) / (1 + u) and (1 + u) / (1 - u) of 1 / p. -/
theorem bid_rate_bounds (fl : ℚ → ℚ) (u p a : ℚ) (hp : 0 < p) (ha : 0 < a)
    (hu0 : 0 ≤ u) (hu1 : u < 1)
    (hM : withinRel fl u (p * a)) (hD : withinRel fl u (a / fl (p * a))) :
    0 < fl (a / fl (p * a)) ∧
      (1 - u) / (1 + u) ≤ p * fl (a / fl (p * a)) ∧
      p * fl (a / fl (p * a)) ≤ (1 + u) / (1 - u) := by
  have hpa : 0 < p * a := mul_pos hp ha
  obtain ⟨s1, s2⟩ := withinRel_bounds fl u (p * a) hpa hM
  have hs : 0 < fl (p * a) := withinRel_pos fl u (p * a) hpa hu1 hM
  have hq : 0 < a / fl (p * a) := div_pos ha hs
  obtain ⟨r1, r2⟩ := withinRel_bounds fl u _ hq hD
  have hR : 0 < fl (a / fl (p * a)) := withinRel_pos fl u _ hq hu1 hD
  have h1u : 0 < 1 + u := by linarith
  have h1m : 0 < 1 - u := by linarith
  have ht : p * (a / fl (p * a)) * fl (p * a) = p * a := by
    field_simp
  have tpos : 0 < p * (a / fl (p * a)) := mul_pos hp hq
  have tlo : 1 ≤ p * (a / fl (p * a)) * (1 + u) := by
    have : fl (p * a) ≤ p * (a / fl (p * a)) * fl (p * a) * (1 + u) := by rw [ht]; exact s2
    have h3 : fl (p * a) * 1 ≤ fl (p * a) * (p * (a / fl (p * a)) * (1 + u)) := by linarith
    exact le_of_mul_le_mul_left h3 hs
  have thi : p * (a / fl (p * a)) * (1 - u) ≤ 1 := by
    have : p * (a / fl (p * a)) * fl (p * a) * (1 - u) ≤ fl (p * a) := by rw [ht]; exact s1
    have h3 : fl (p * a) * (p * (a / fl (p * a)) * (1 - u)) ≤ fl (p * a) * 1 := by linarith
    exact le_of_mul_le_mul_left h3 hs
  refine ⟨hR, ?_, ?_⟩
  · rw [div_le_iff₀ h1u]
    have e1 : p * (a / fl (p * a) * (1 - u)) ≤ p * fl (a / fl (p * a)) :=
      mul_le_mul_of_nonneg_left r1 hp.le
    have e2 : (1 - u) * 1 ≤ (1 - u) * (p * (a / fl (p * a)) * (1 + u)) :=
      mul_le_mul_of_nonneg_left tlo h1m.le
    have e3 : p * (a / fl (p * a) * (1 - u)) * (1 + u) ≤ p * fl (a / fl (p * a)) * (1 + u) :=
      mul_le_mul_of_nonneg_right e1 h1u.le
    linarith
  · rw [le_div_iff₀ h1m]
    have e1 : p * fl (a / fl (p * a)) ≤ p * (a / fl (p * a) * (1 + u)) :=
      mul_le_mul_of_nonneg_left r2 hp.le
    have e2 : (1 + u) * (p * (a / fl (p * a)) * (1 - u)) ≤ (1 + u) * 1 :=
      mul_le_mul_of_nonneg_left thi h1u.le
    have e3 : p * fl (a / fl (p * a)) * (1 - u) ≤ p * (a / fl (p * a) * (1 + u)) * (1 - u) :=
      mul_le_mul_of_nonneg_right e1 h1m.le
    linarith

/-- The ask-side quotient `fl (fl (p * a) / a)` lies within the factors
(1 - u)^2 and (1 + u)^2 of p. -/
theorem ask_rate_bounds (fl : ℚ → ℚ) (u p a : ℚ) (hp : 0 < p) (ha : 0 < a)
    (hu0 : 0 ≤ u) (hu1 : u < 1)
    (hM : withinRel fl u (p * a)) (hD : withinRel fl u (fl (p * a) / a)) :
    0 < fl (p * a) ∧ 0 < fl (fl (p * a) / a) ∧
      p * (1 - u) ^ 2 ≤ fl (fl (p * a) / a) ∧
      fl (fl (p * a) / a) ≤ p * (1 + u) ^ 2 := by
  have hpa : 0 < p * a := mul_pos hp ha
  obtain ⟨s1, s2⟩ := withinRel_bounds fl u (p * a) hpa hM
  have hs : 0 < fl (p * a) := withinRel_pos fl u (p * a) hpa hu1 hM
  have hq : 0 < fl (p * a) / a := div_pos hs ha
  obtain ⟨r1, r2⟩ := withinRel_bounds fl u _ hq hD
  have hR : 0 < fl (fl (p * a) / a) := withinRel_pos fl u _ hq hu1 hD
  have h1u : 0 < 1 + u := by linarith
  have h1m : 0 < 1 - u := by linarith
  have q1 : p * (1 - u) ≤ fl (p * a) / a := by
    rw [le_div_iff₀ ha]
    linarith
  have q2 : fl (p * a) / a ≤ p * (1 + u) := by
    rw [div_le_iff₀ ha]
    linarith
  refine ⟨hs, hR, ?_, ?_⟩
  · have e1 : p * (1 - u) * (1 - u) ≤ fl (p * a) / a * (1 - u) :=
      mul_le_mul_of_nonneg_right q1 h1m.le
    have e2 : p * (1 - u) ^ 2 = p * (1 - u) * (1 - u) := by ring
    linarith
  · have e1 : fl (p * a) / a * (1 + u) ≤ p * (1 + u) * (1 + u) :=
      mul_le_mul_of_nonneg_right q2 h1u.le
    have e2 : p * (1 + u) ^ 2 = p * (1 + u) * (1 + u) := by ring
    linarith

/-! ## The rate up to rounding -/

/-- C5 (amended): the rate computed by `GetExchangeRate` is the number of units
of FROM per unit of TO, up to float64 rounding.  On a snapshot of symbol
base+quote with best bid (p, a), p > 0 and a > 0, the rate from base to quote
is the rounded quotient a / (p * a), within the factors (1 - u) / (1 + u) and
(1 + u) / (1 - u) of 1 / p; with best ask (p, a) the rate from quote to base is
the rounded quotient (p * a) / a, within the factors (1 - u)^2 and (1 + u)^2 of
p, when the quote token is not a prefix of the symbol.  Here `fl` is the
rounding of the arithmetic, exact on the additions to the zero accumulators,
and u < 1 bounds its relative error on the product and on the quotient. -/
theorem GetExchangeRate_rate_up_to_rounding (fl : ℚ → ℚ) (u : ℚ) (base quote : Currency)
    (depth : MarketDepth) (p a : ℚ) (extra : List ℚ) (rest : List PriceAmount)
    (_hbase : plainToken base = true) (_hquote : plainToken quote = true)
    (hp : 0 < p) (ha : 0 < a) (hu0 : 0 ≤ u) (hu1 : u < 1)
    (hsym : depth.SymbolStr = base ++ quote)
    (hA : fl (0 + a) = a) (hS : fl (0 + fl (p * a)) = fl (p * a))
    (hM : withinRel fl u (p * a)) :
    (depth.Bids = (p :: a :: extra) :: rest → withinRel fl u (a / fl (p * a)) →
      ∃ er, GetExchangeRateFl fl base quote depth = some er ∧
        er.Rate = fl (a / fl (p * a)) ∧
        (1 - u) / (1 + u) ≤ p * er.Rate ∧ p * er.Rate ≤ (1 + u) / (1 - u)) ∧
    (depth.Asks = (p :: a :: extra) :: rest → (¬ ∃ t, base ++ quote = quote ++ t) →
      withinRel fl u (fl (p * a) / a) →
      ∃ er, GetExchangeRateFl fl quote base depth = some er ∧
        er.Rate = fl (fl (p * a) / a) ∧
        p * (1 - u) ^ 2 ≤ er.Rate ∧ er.Rate ≤ p * (1 + u) ^ 2) := by
  constructor
  · intro hb hD
    have hm : MatchString ("^" ++ base) depth.SymbolStr = true :=
      (MatchString_caret base depth.SymbolStr).2 ⟨quote, hsym⟩
    obtain ⟨-, b1, b2⟩ := bid_rate_bounds fl u p a hp ha hu0 hu1 hM hD
    refine ⟨_, GetExchangeRateFl_bid fl base quote depth p a extra rest hm hb, ?_, ?_, ?_⟩
    · simp only [hA, hS]
    · simp only [hA, hS]
      exact b1
    · simp only [hA, hS]
      exact b2
  · intro hask hnp hD
    have hm : MatchString ("^" ++ quote) depth.SymbolStr = false := by
      rw [← Bool.not_eq_true, hsym]
      exact fun h => hnp ((MatchString_caret quote (base ++ quote)).1 h)
    obtain ⟨-, -, b1, b2⟩ := ask_rate_bounds fl u p a hp ha hu0 hu1 hM hD
    refine ⟨_, GetExchangeRateFl_ask fl quote base depth p a extra rest hm hask, ?_, ?_, ?_⟩
    · simp only [hA, hS]
    · simp only [hA, hS]
      exact b1
    · simp only [hA, hS]
      exact b2

theorem round64_two : round64 2 = 2 :=
  round64_eq_self 2 1 4503599627370496 (by norm_num) (by norm_num) (by norm_num)
    (by norm_num) (by norm_num)

theorem round64_100000 : round64 100000 = 100000 :=
  round64_eq_self 100000 16 6871947673600000 (by norm_num) (by norm_num) (by norm_num)
    (by norm_num) (by norm_num)

theorem round64_withinRel_of_le (x : ℚ) (h : (2 : ℚ) ^ (-1022 : ℤ) ≤ x) :
    withinRel round64 ((2 : ℚ) ^ (-53 : ℤ)) x :=
  round64_withinRel x (le_trans h (le_abs_self x))

theorem round64_one : round64 1 = 1 :=
  round64_eq_self 1 0 4503599627370496 (by norm_num) (by norm_num) (by norm_num)
    (by norm_num) (by norm_num)

theorem round64_three : round64 3 = 3 :=
  round64_eq_self 3 1 6755399441055744 (by norm_num) (by norm_num) (by norm_num)
    (by norm_num) (by norm_num)

theorem round64_49 : round64 49 = 49 :=
  round64_eq_self 49 5 6896136929411072 (by norm_num) (by norm_num) (by norm_num)
    (by norm_num) (by norm_num)

theorem round64_150030 : round64 150030 = 150030 :=
  round64_eq_self 150030 17 5154991547351040 (by norm_num) (by norm_num) (by norm_num)
    (by norm_num) (by norm_num)

theorem round64_inv49 : round64 (1 / 49) = 5882252574524729 / 288230376151711744 := by
  rw [round64_of_bracket (1 / 49) ((2 : ℚ) ^ (-58 : ℤ)) (-6) 5882252574524729 (by norm_num)
    (by norm_num) (by norm_num) (by norm_num) (by norm_num) (by norm_num)]
  norm_num

theorem GetExchangeRate_rate_up_to_rounding_witness :
    (∃ er, GetExchangeRateFl round64 "btc" "usdt" btcusdtDepth = some er ∧
      er.Rate = round64 (2 / round64 (50000 * 2)) ∧
      (1 - (2 : ℚ) ^ (-53 : ℤ)) / (1 + (2 : ℚ) ^ (-53 : ℤ)) ≤ 50000 * er.Rate ∧
      50000 * er.Rate ≤ (1 + (2 : ℚ) ^ (-53 : ℤ)) / (1 - (2 : ℚ) ^ (-53 : ℤ))) ∧
    (∃ er, GetExchangeRateFl round64 "usdt" "btc" btcusdtDepth = some er ∧
      er.Rate = round64 (round64 (50010 * 3) / 3) ∧
      50010 * (1 - (2 : ℚ) ^ (-53 : ℤ)) ^ 2 ≤ er.Rate ∧
      er.Rate ≤ 50010 * (1 + (2 : ℚ) ^ (-53 : ℤ)) ^ 2) :=
  ⟨(GetExchangeRate_rate_up_to_rounding round64 ((2 : ℚ) ^ (-53 : ℤ)) "btc" "usdt"
      btcusdtDepth 50000 2 [] [[49990, 7]] (by decide) (by decide) (by norm_num)
      (by norm_num) (by norm_num) (by norm_num) (by decide)
      (by norm_num [round64_two])
      (by norm_num [round64_100000])
      (round64_withinRel_of_le _ (by norm_num))).1 rfl
      (round64_withinRel_of_le _ (by norm_num [round64_100000])),
    (GetExchangeRate_rate_up_to_rounding round64 ((2 : ℚ) ^ (-53 : ℤ)) "btc" "usdt"
      btcusdtDepth 50010 3 [] [[50020, 5]] (by decide) (by decide) (by norm_num)
      (by norm_num) (by norm_num) (by norm_num) (by decide)
      (by norm_num [round64_three])
      (by norm_num [round64_150030])
      (round64_withinRel_of_le _ (by norm_num))).2 rfl
      (by
        rw [← MatchString_caret]
        decide)
      (round64_withinRel_of_le _ (by norm_num [round64_150030]))⟩

/-! ## Round trip through one book -/

/-- C18 (counterexample): on the locked book 49 / 49 of "btcusdt" (best bid
(49, 1), best ask (49, 1), so pa ≥ pb), in binary64 the rate from btc to usdt
is the rounded 1 / 49 and the rate from usdt to btc is 49; their product is
below 1, differs from pa / pb = 1, rounds to 1 - 2^(-53), and its inverse, the
round-trip return, exceeds 1. -/
theorem round_trip_counterexample :
    ∃ r1 r2, GetExchangeRateFl round64 "btc" "usdt" lockedDepth = some r1 ∧
      GetExchangeRateFl round64 "usdt" "btc" lockedDepth = some r2 ∧
      r1.Rate * r2.Rate < 1 ∧ r1.Rate * r2.Rate ≠ 49 / 49 ∧
      1 < 1 / (r1.Rate * r2.Rate) ∧
      round64 (r1.Rate * r2.Rate) = 9007199254740991 / 9007199254740992 := by
  refine ⟨_, _, GetExchangeRateFl_bid round64 "btc" "usdt" lockedDepth 49 1 [] []
    (by decide) rfl, GetExchangeRateFl_ask round64 "usdt" "btc" lockedDepth 49 1 [] []
    (by decide) rfl, ?_, ?_, ?_, ?_⟩
  · norm_num [round64_one, round64_49, round64_inv49]
  · norm_num [round64_one, round64_49, round64_inv49]
  · norm_num [round64_one, round64_49, round64_inv49]
  · norm_num [round64_one, round64_49, round64_inv49]
    rw [round64_of_bracket _ ((2 : ℚ) ^ (-53 : ℤ)) (-1) 9007199254740991 (by norm_num)
      (by norm_num) (by norm_num) (by norm_num) (by norm_num) (by norm_num)]
    norm_num

/-- C18 (amended): a round trip through one order book, up to float64
rounding.  On a snapshot of the symbol of `s` with best bid (pb, ab) and best
ask (pa, aa), all positive, and the quote token not a prefix of the symbol, the
rates base to quote and quote to base multiply to pa / pb within the factors
(1 - u)^3 / (1 + u) and (1 + u)^3 / (1 - u); when pb ≤ pa the product is at
least (1 - u)^3 / (1 + u) and its inverse at most (1 + u) / (1 - u)^3.  Here
`fl` is the rounding of the arithmetic, exact on the additions to the zero
accumulators, and u < 1 bounds its relative error on the two products and the
two quotients. -/
theorem round_trip_up_to_rounding (fl : ℚ → ℚ) (u : ℚ) (s : Symbol) (depth : MarketDepth)
    (pb ab pa aa : ℚ) (eb ea : List ℚ) (rb ra : List PriceAmount)
    (_hbase : plainToken s.BaseCurrency = true) (_hquote : plainToken s.QuoteCurrency = true)
    (hsym : depth.SymbolStr = s.Symbol)
    (hq : ¬ ∃ t, s.Symbol = s.QuoteCurrency ++ t)
    (hbids : depth.Bids = (pb :: ab :: eb) :: rb)
    (hasks : depth.Asks = (pa :: aa :: ea) :: ra)
    (hpb : 0 < pb) (hab : 0 < ab) (hpa : 0 < pa) (haa : 0 < aa)
    (hu0 : 0 ≤ u) (hu1 : u < 1)
    (hAb : fl (0 + ab) = ab) (hSb : fl (0 + fl (pb * ab)) = fl (pb * ab))
    (hAa : fl (0 + aa) = aa) (hSa : fl (0 + fl (pa * aa)) = fl (pa * aa))
    (hMb : withinRel fl u (pb * ab)) (hDb : withinRel fl u (ab / fl (pb * ab)))
    (hMa : withinRel fl u (pa * aa)) (hDa : withinRel fl u (fl (pa * aa) / aa)) :
    ∃ r1 r2, GetExchangeRateFl fl s.BaseCurrency s.QuoteCurrency depth = some r1 ∧
      GetExchangeRateFl fl s.QuoteCurrency s.BaseCurrency depth = some r2 ∧
      pa / pb * ((1 - u) ^ 3 / (1 + u)) ≤ r1.Rate * r2.Rate ∧
      r1.Rate * r2.Rate ≤ pa / pb * ((1 + u) ^ 3 / (1 - u)) ∧
      (pb ≤ pa → (1 - u) ^ 3 / (1 + u) ≤ r1.Rate * r2.Rate ∧
        1 / (r1.Rate * r2.Rate) ≤ (1 + u) / (1 - u) ^ 3) := by
  have hm1 : MatchString ("^" ++ s.BaseCurrency) depth.SymbolStr = true :=
    (MatchString_caret s.BaseCurrency depth.SymbolStr).2 ⟨s.QuoteCurrency, hsym⟩
  have hm2 : MatchString ("^" ++ s.QuoteCurrency) depth.SymbolStr = false := by
    rw [← Bool.not_eq_true, hsym]
    exact fun h => hq ((MatchString_caret s.QuoteCurrency s.Symbol).1 h)
  obtain ⟨R1pos, b1, b2⟩ := bid_rate_bounds fl u pb ab hpb hab hu0 hu1 hMb hDb
  obtain ⟨-, R2pos, a1, a2⟩ := ask_rate_bounds fl u pa aa hpa haa hu0 hu1 hMa hDa
  have h1u : 0 < 1 + u := by linarith
  have h1m : 0 < 1 - u := by linarith
  refine ⟨_, _, GetExchangeRateFl_bid fl _ _ depth pb ab eb rb hm1 hbids,
    GetExchangeRateFl_ask fl _ _ depth pa aa ea ra hm2 hasks, ?_⟩
  simp only [hAb, hSb, hAa, hSa]
  generalize fl (ab / fl (pb * ab)) = R1 at R1pos b1 b2 ⊢
  generalize fl (fl (pa * aa) / aa) = R2 at R2pos a1 a2 ⊢
  have Lpos : 0 < (1 - u) / (1 + u) := div_pos h1m h1u
  have Upos : 0 < (1 + u) / (1 - u) := div_pos h1u h1m
  have lo : pa * ((1 - u) ^ 3 / (1 + u)) ≤ pb * (R1 * R2) := by
    have e1 : (1 - u) / (1 + u) * R2 ≤ pb * R1 * R2 := mul_le_mul_of_nonneg_right b1 R2pos.le
    have e2 : (1 - u) / (1 + u) * (pa * (1 - u) ^ 2) ≤ (1 - u) / (1 + u) * R2 :=
      mul_le_mul_of_nonneg_left a1 Lpos.le
    have e3 : pa * ((1 - u) ^ 3 / (1 + u)) = (1 - u) / (1 + u) * (pa * (1 - u) ^ 2) := by
      field_simp
      ring
    have e4 : pb * (R1 * R2) = pb * R1 * R2 := by ring
    linarith
  have hi : pb * (R1 * R2) ≤ pa * ((1 + u) ^ 3 / (1 - u)) := by
    have e1 : pb * R1 * R2 ≤ (1 + u) / (1 - u) * R2 := mul_le_mul_of_nonneg_right b2 R2pos.le
    have e2 : (1 + u) / (1 - u) * R2 ≤ (1 + u) / (1 - u) * (pa * (1 + u) ^ 2) :=
      mul_le_mul_of_nonneg_left a2 Upos.le
    have e3 : pa * ((1 + u) ^ 3 / (1 - u)) = (1 + u) / (1 - u) * (pa * (1 + u) ^ 2) := by
      field_simp
      ring
    have e4 : pb * (R1 * R2) = pb * R1 * R2 := by ring
    linarith
  have lo' : pa / pb * ((1 - u) ^ 3 / (1 + u)) ≤ R1 * R2 := by
    rw [div_mul_eq_mul_div, div_le_iff₀ hpb]
    linarith
  have hi' : R1 * R2 ≤ pa / pb * ((1 + u) ^ 3 / (1 - u)) := by
    rw [div_mul_eq_mul_div, le_div_iff₀ hpb]
    linarith
  refine ⟨lo', hi', ?_⟩
  intro hle
  have Xpos : 0 < (1 - u) ^ 3 / (1 + u) := div_pos (pow_pos h1m 3) h1u
  have hratio : 1 ≤ pa / pb := by
    rw [le_div_iff₀ hpb]
    linarith
  have hX : (1 - u) ^ 3 / (1 + u) ≤ R1 * R2 := by
    have : 1 * ((1 - u) ^ 3 / (1 + u)) ≤ pa / pb * ((1 - u) ^ 3 / (1 + u)) :=
      mul_le_mul_of_nonneg_right hratio Xpos.le
    linarith
  refine ⟨hX, ?_⟩
  have h3 : 1 / (R1 * R2) ≤ 1 / ((1 - u) ^ 3 / (1 + u)) :=
    one_div_le_one_div_of_le Xpos hX
  have h4 : 1 / ((1 - u) ^ 3 / (1 + u)) = (1 + u) / (1 - u) ^ 3 := by
    field_simp
  rw [h4] at h3
  exact h3

theorem round_trip_up_to_rounding_witness :
    ∃ r1 r2, GetExchangeRateFl round64 "btc" "usdt" btcusdtDepth = some r1 ∧
      GetExchangeRateFl round64 "usdt" "btc" btcusdtDepth = some r2 ∧
      50010 / 50000 * ((1 - (2 : ℚ) ^ (-53 : ℤ)) ^ 3 / (1 + (2 : ℚ) ^ (-53 : ℤ))) ≤
        r1.Rate * r2.Rate ∧
      r1.Rate * r2.Rate ≤
        50010 / 50000 * ((1 + (2 : ℚ) ^ (-53 : ℤ)) ^ 3 / (1 - (2 : ℚ) ^ (-53 : ℤ))) ∧
      ((50000 : ℚ) ≤ 50010 →
        (1 - (2 : ℚ) ^ (-53 : ℤ)) ^ 3 / (1 + (2 : ℚ) ^ (-53 : ℤ)) ≤ r1.Rate * r2.Rate ∧
        1 / (r1.Rate * r2.Rate) ≤
          (1 + (2 : ℚ) ^ (-53 : ℤ)) / (1 - (2 : ℚ) ^ (-53 : ℤ)) ^ 3) :=
  round_trip_up_to_rounding round64 ((2 : ℚ) ^ (-53 : ℤ)) btcusdtSymbol btcusdtDepth
    50000 2 50010 3 [] [] [[49990, 7]] [[50020, 5]] (by decide) (by decide) (by decide)
    (by
      rw [← MatchString_caret]
      decide)
    rfl rfl (by norm_num) (by norm_num) (by norm_num) (by norm_num) (by norm_num)
    (by norm_num)
    (by norm_num [round64_two])
    (by norm_num [round64_100000])
    (by norm_num [round64_three])
    (by norm_num [round64_150030])
    (round64_withinRel_of_le _ (by norm_num))
    (round64_withinRel_of_le _ (by norm_num [round64_100000]))
    (round64_withinRel_of_le _ (by norm_num))
    (round64_withinRel_of_le _ (by norm_num [round64_150030]))

/-! ## Well-definedness of the divisions -/

theorem tryLoopFl_id (http : Nat → String → Int → Response) (symbols : List Symbol)
    (pairs : List (List Currency)) (n : Nat) (rates : List ExchangeRate) :
    tryLoopFl id http symbols pairs n rates = tryLoop http symbols pairs n rates := by
  induction pairs generalizing n rates with
  | nil => rfl
  | cons p rest ih =>
    unfold tryLoopFl tryLoop
    simp only [GetExchangeRateFl_id, ih]

theorem TryFl_id (http : Nat → String → Int → Response) (ch : Chain) (symbols : List Symbol) :
    Chain.TryFl id http ch symbols = Chain.Try http ch symbols := by
  unfold Chain.TryFl Chain.Try
  simp only [tryLoopFl_id]
  rfl

theorem TryFl_eq_tryResultFl (fl : ℚ → ℚ) (http : Nat → String → Int → Response)
    (symbols : List Symbol) (c0 c1 c2 : Currency) (more : List Currency) (s1 s2 s3 : String)
    (r1 r2 r3 : ExchangeRate)
    (h1 : getSymbolStr [c0, c1] symbols = some s1)
    (h2 : getSymbolStr [c1, c2] symbols = some s2)
    (h3 : getSymbolStr [c2, c0] symbols = some s3)
    (g1 : GetExchangeRateFl fl c0 c1 (Depth (http 0) s1 0).1 = some r1)
    (g2 : GetExchangeRateFl fl c1 c2 (Depth (http 1) s2 0).1 = some r2)
    (g3 : GetExchangeRateFl fl c2 c0 (Depth (http 2) s3 0).1 = some r3) :
    Chain.TryFl fl http (c0 :: c1 :: c2 :: more) symbols = tryResultFl fl [r1, r2, r3] := by
  simp [Chain.TryFl, Pairs_of_three, tryLoopFl, h1, h2, h3, g1, g2, g3]

theorem tryResultFl_three (fl : ℚ → ℚ) (r1 r2 r3 : ExchangeRate) :
    tryResultFl fl [r1, r2, r3] =
      some (min (min r1.Max (fl (r2.Max * r1.Rate))) (fl (fl (r3.Max * r2.Rate) * r1.Rate)),
        fl (fl (1 / fl (fl (r1.Rate * r2.Rate) * r3.Rate)) - fl 0.002)) := by
  simp [tryResultFl]

theorem round64_tiny : round64 ((2 : ℚ) ^ (-600 : ℤ)) = (2 : ℚ) ^ (-600 : ℤ) :=
  round64_eq_self _ (-600) 4503599627370496 (by positivity) (by norm_num) (by norm_num)
    (by norm_num) (by norm_num)

theorem round64_tiny_product :
    round64 ((2 : ℚ) ^ (-600 : ℤ) * (2 : ℚ) ^ (-600 : ℤ)) = 0 := by
  rw [round64_of_bracket _ ((2 : ℚ) ^ (-1074 : ℤ)) (-1200) 0 (by positivity)
    (by norm_num) (by norm_num) (by norm_num) (by norm_num) (by norm_num)]
  norm_num

/-- C19 (counterexample): the best bid and best ask of `tinyDepth` are
(2^(-600), 2^(-600)), positive binary64 values.  In binary64 their product
underflows to 0: on the bid branch (from = btc) the divisor `sum` is 0, and on
the ask branch (from = usdt) the result has Rate = 0 and Max = 0. -/
theorem divisions_underflow_counterexample :
    (0 : ℚ) < (2 : ℚ) ^ (-600 : ℤ) ∧
      round64 ((2 : ℚ) ^ (-600 : ℤ)) = (2 : ℚ) ^ (-600 : ℤ) ∧
      MatchString ("^" ++ "btc") tinyDepth.SymbolStr = true ∧
      topLoopFl round64 tinyDepth.Bids 1 0 0 = some ((2 : ℚ) ^ (-600 : ℤ), 0) ∧
      MatchString ("^" ++ "usdt") tinyDepth.SymbolStr = false ∧
      GetExchangeRateFl round64 "usdt" "btc" tinyDepth =
        some { From := "usdt", To := "btc", Rate := 0, Max := 0 } := by
  refine ⟨by positivity, round64_tiny, by decide, ?_, by decide, ?_⟩
  · rw [show tinyDepth.Bids = [[(2 : ℚ) ^ (-600 : ℤ), (2 : ℚ) ^ (-600 : ℤ)]] from rfl,
      topLoopFl_one]
    simp only [zero_add, round64_tiny, round64_tiny_product, round64_zero]
  · rw [GetExchangeRateFl_ask round64 "usdt" "btc" tinyDepth ((2 : ℚ) ^ (-600 : ℤ))
      ((2 : ℚ) ^ (-600 : ℤ)) [] [] (by decide) rfl]
    simp only [zero_add, round64_tiny, round64_tiny_product, round64_zero, zero_div]

/-- C19 (amended): the divisions are well defined on non-degenerate books
when no float64 operation underflows or overflows (currency tokens and symbol
strings being plain alphanumeric).  If the first entry of the
side consulted by `GetExchangeRate` has price > 0 and amount > 0, and the
product price * amount and the quotient are rounded with a relative error
u < 1 (the additions to the zero accumulators being exact), then the divisor
(sum on the bid branch, amount on the ask branch) is non-zero and the result
has Rate > 0 and Max > 0.  Consequently, when the three legs of a chain have
Rate > 0 and Max > 0 and the five products formed by `Chain.Try` are rounded
with a relative error u < 1, `Try` returns a pair, the product
Rate1 * Rate2 * Rate3 it divides by is positive, and the bottleneck volume is
positive and at most Max1. -/
theorem divisions_well_defined_up_to_rounding :
    (∀ (fl : ℚ → ℚ) (u : ℚ) (src dst : Currency) (depth : MarketDepth) (p a : ℚ)
        (extra : List ℚ) (rest : List PriceAmount),
      plainToken src = true → 0 < p → 0 < a → u < 1 →
      consultedSide src depth = (p :: a :: extra) :: rest →
      fl (0 + a) = a → fl (0 + fl (p * a)) = fl (p * a) →
      withinRel fl u (p * a) →
      withinRel fl u (if MatchString ("^" ++ src) depth.SymbolStr = true
        then a / fl (p * a) else fl (p * a) / a) →
      ∃ er amount sum, topLoopFl fl (consultedSide src depth) 1 0 0 = some (amount, sum) ∧
        (if MatchString ("^" ++ src) depth.SymbolStr = true then sum ≠ 0 else amount ≠ 0) ∧
        GetExchangeRateFl fl src dst depth = some er ∧ 0 < er.Rate ∧ 0 < er.Max) ∧
    (∀ (fl : ℚ → ℚ) (u : ℚ) (http : Nat → String → Int → Response) (symbols : List Symbol)
        (c0 c1 c2 : Currency) (more : List Currency) (s1 s2 s3 : String)
        (r1 r2 r3 : ExchangeRate),
      plainToken c0 = true → plainToken c1 = true → plainToken c2 = true →
      plainToken s1 = true → plainToken s2 = true → plainToken s3 = true →
      getSymbolStr [c0, c1] symbols = some s1 →
      getSymbolStr [c1, c2] symbols = some s2 →
      getSymbolStr [c2, c0] symbols = some s3 →
      GetExchangeRateFl fl c0 c1 (Depth (http 0) s1 0).1 = some r1 →
      GetExchangeRateFl fl c1 c2 (Depth (http 1) s2 0).1 = some r2 →
      GetExchangeRateFl fl c2 c0 (Depth (http 2) s3 0).1 = some r3 →
      0 < r1.Rate → 0 < r1.Max → 0 < r2.Rate → 0 < r2.Max → 0 < r3.Rate → 0 < r3.Max →
      u < 1 →
      withinRel fl u (r2.Max * r1.Rate) →
      withinRel fl u (r3.Max * r2.Rate) →
      withinRel fl u (fl (r3.Max * r2.Rate) * r1.Rate) →
      withinRel fl u (r1.Rate * r2.Rate) →
      withinRel fl u (fl (r1.Rate * r2.Rate) * r3.Rate) →
      ∃ vol rate, Chain.TryFl fl http (c0 :: c1 :: c2 :: more) symbols = some (vol, rate) ∧
        0 < fl (fl (r1.Rate * r2.Rate) * r3.Rate) ∧
        rate = fl (fl (1 / fl (fl (r1.Rate * r2.Rate) * r3.Rate)) - fl 0.002) ∧
        0 < vol ∧ vol ≤ r1.Max) := by
  constructor
  · intro fl u src dst depth p a extra rest _ hp ha hu hside hA hS hM hD
    have hpa : 0 < p * a := mul_pos hp ha
    have hs : 0 < fl (p * a) := withinRel_pos fl u (p * a) hpa hu hM
    have htop : topLoopFl fl (consultedSide src depth) 1 0 0 = some (a, fl (p * a)) := by
      rw [hside, topLoopFl_one, hA, hS]
    unfold consultedSide at hside
    cases hm : MatchString ("^" ++ src) depth.SymbolStr
    · simp only [hm, Bool.false_eq_true, if_false] at hside hD
      have hR : 0 < fl (fl (p * a) / a) := withinRel_pos fl u _ (div_pos hs ha) hu hD
      refine ⟨_, a, fl (p * a), htop, ?_,
        GetExchangeRateFl_ask fl src dst depth p a extra rest hm hside, ?_, ?_⟩
      · simp only [Bool.false_eq_true, if_false]
        exact ne_of_gt ha
      · simp only [hA, hS]
        exact hR
      · simp only [hS]
        exact hs
    · simp only [hm, if_true] at hside hD
      have hR : 0 < fl (a / fl (p * a)) := withinRel_pos fl u _ (div_pos ha hs) hu hD
      refine ⟨_, a, fl (p * a), htop, ?_,
        GetExchangeRateFl_bid fl src dst depth p a extra rest hm hside, ?_, ?_⟩
      · simp only [if_true]
        exact ne_of_gt hs
      · simp only [hA, hS]
        exact hR
      · simp only [hA]
        exact ha
  · intro fl u http symbols c0 c1 c2 more s1 s2 s3 r1 r2 r3 _ _ _ _ _ _ h1 h2 h3 g1 g2 g3
      p1 m1 p2 m2 p3 m3 hu w1 w2 w3 w4 w5
    have v1 : 0 < fl (r2.Max * r1.Rate) := withinRel_pos fl u _ (mul_pos m2 p1) hu w1
    have v2 : 0 < fl (r3.Max * r2.Rate) := withinRel_pos fl u _ (mul_pos m3 p2) hu w2
    have v3 : 0 < fl (fl (r3.Max * r2.Rate) * r1.Rate) :=
      withinRel_pos fl u _ (mul_pos v2 p1) hu w3
    have v4 : 0 < fl (r1.Rate * r2.Rate) := withinRel_pos fl u _ (mul_pos p1 p2) hu w4
    have v5 : 0 < fl (fl (r1.Rate * r2.Rate) * r3.Rate) :=
      withinRel_pos fl u _ (mul_pos v4 p3) hu w5
    refine ⟨min (min r1.Max (fl (r2.Max * r1.Rate))) (fl (fl (r3.Max * r2.Rate) * r1.Rate)),
      fl (fl (1 / fl (fl (r1.Rate * r2.Rate) * r3.Rate)) - fl 0.002), ?_, v5, rfl, ?_, ?_⟩
    · rw [TryFl_eq_tryResultFl fl http symbols c0 c1 c2 more s1 s2 s3 r1 r2 r3 h1 h2 h3
        g1 g2 g3, tryResultFl_three]
    · exact lt_min (lt_min m1 v1) v3
    · exact le_trans (min_le_left _ _) (min_le_left _ _)

theorem divisions_well_defined_up_to_rounding_witness :
    (∃ er amount sum,
      topLoopFl round64 (consultedSide "btc" btcusdtDepth) 1 0 0 = some (amount, sum) ∧
      (if MatchString ("^" ++ "btc") btcusdtDepth.SymbolStr = true then sum ≠ 0
        else amount ≠ 0) ∧
      GetExchangeRateFl round64 "btc" "usdt" btcusdtDepth = some er ∧
      0 < er.Rate ∧ 0 < er.Max) ∧
    (∃ er amount sum,
      topLoopFl round64 (consultedSide "usdt" btcusdtDepth) 1 0 0 = some (amount, sum) ∧
      (if MatchString ("^" ++ "usdt") btcusdtDepth.SymbolStr = true then sum ≠ 0
        else amount ≠ 0) ∧
      GetExchangeRateFl round64 "usdt" "btc" btcusdtDepth = some er ∧
      0 < er.Rate ∧ 0 < er.Max) ∧
    (∃ vol rate,
      Chain.TryFl id quotedHttp ["usdt", "eth", "btc"] triangleCatalog = some (vol, rate) ∧
      0 < vol) := by
  refine ⟨?_, ?_, ?_⟩
  · exact divisions_well_defined_up_to_rounding.1 round64 ((2 : ℚ) ^ (-53 : ℤ)) "btc" "usdt"
      btcusdtDepth 50000 2 [] [[49990, 7]] (by decide) (by norm_num) (by norm_num)
      (by norm_num) (by decide)
      (by norm_num [round64_two])
      (by norm_num [round64_100000])
      (round64_withinRel_of_le _ (by norm_num))
      (by
        rw [if_pos (by decide)]
        exact round64_withinRel_of_le _ (by norm_num [round64_100000]))
  · exact divisions_well_defined_up_to_rounding.1 round64 ((2 : ℚ) ^ (-53 : ℤ)) "usdt" "btc"
      btcusdtDepth 50010 3 [] [[50020, 5]] (by decide) (by norm_num) (by norm_num)
      (by norm_num) (by decide)
      (by norm_num [round64_three])
      (by norm_num [round64_150030])
      (round64_withinRel_of_le _ (by norm_num))
      (by
        rw [if_neg (by decide)]
        exact round64_withinRel_of_le _ (by norm_num [round64_150030]))
  · obtain ⟨vol, rate, h, -, -, hv, -⟩ :=
      divisions_well_defined_up_to_rounding.2 id (1 / 2) quotedHttp triangleCatalog
        "usdt" "eth" "btc" [] "ethusdt" "btceth" "usdtbtc" _ _ _
        (by decide) (by decide) (by decide) (by decide) (by decide) (by decide)
        (by decide) (by decide) (by decide)
        (GetExchangeRateFl_ask id "usdt" "eth" _ 0.99 10 [] [] (by decide) rfl)
        (GetExchangeRateFl_ask id "eth" "btc" _ 0.98 10 [] [] (by decide) rfl)
        (GetExchangeRateFl_ask id "btc" "usdt" _ 1.02 10 [] [] (by decide) rfl)
        (by norm_num) (by norm_num) (by norm_num) (by norm_num) (by norm_num) (by norm_num)
        (by norm_num)
        (by simp [withinRel]) (by simp [withinRel])
        (by simp [withinRel]) (by simp [withinRel])
        (by simp [withinRel])
    exact ⟨vol, rate, h, hv⟩

/-! ## Fetch errors -/

theorem isSome_topLoopFl (fl fl' : ℚ → ℚ) (data : List PriceAmount) (max : Int)
    (amount sum amount' sum' : ℚ)
    (h : (topLoopFl fl data max amount sum).isSome = true) :
    (topLoopFl fl' data max amount' sum').isSome = true := by
  induction data generalizing max amount sum amount' sum' with
  | nil => rfl
  | cons v rest ih =>
    unfold topLoopFl at h ⊢
    split_ifs at h ⊢
    · rfl
    · cases h0 : v[0]? <;> cases h1 : v[1]? <;> simp only [h0, h1] at h ⊢
      · exact h
      · exact h
      · exact h
      · exact ih _ _ _ _ _ h

/-- Whether `GetExchangeRate` returns does not depend on the rounding. -/
theorem isSome_GetExchangeRateFl (fl fl' : ℚ → ℚ) (src dst : Currency) (depth : MarketDepth)
    (h : (GetExchangeRateFl fl src dst depth).isSome = true) :
    (GetExchangeRateFl fl' src dst depth).isSome = true := by
  unfold GetExchangeRateFl at h ⊢
  simp only at h ⊢
  cases hm : MatchString ("^" ++ src) depth.SymbolStr <;> simp only [hm] at h ⊢
  · cases h1 : topLoopFl fl depth.Asks 1 0 0 with
    | none => simp [h1] at h
    | some v =>
      have h2 := isSome_topLoopFl fl fl' depth.Asks 1 0 0 0 0 (by rw [h1]; rfl)
      obtain ⟨w, hw⟩ := Option.isSome_iff_exists.1 h2
      simp [hw]
  · cases h1 : topLoopFl fl depth.Bids 1 0 0 with
    | none => simp [h1] at h
    | some v =>
      have h2 := isSome_topLoopFl fl fl' depth.Bids 1 0 0 0 0 (by rw [h1]; rfl)
      obtain ⟨w, hw⟩ := Option.isSome_iff_exists.1 h2
      simp [hw]

theorem GetExchangeRateFl_zeroDepth (fl : ℚ → ℚ) (src dst : Currency) :
    (GetExchangeRateFl fl src dst zeroDepth).isSome = true := by
  unfold GetExchangeRateFl
  by_cases hm : MatchString ("^" ++ src) zeroDepth.SymbolStr = true <;>
    simp [hm, zeroDepth, topLoopFl]

theorem leg_isSomeFl (fl : ℚ → ℚ) (http : String → Int → Response) (symbolStr : String)
    (src dst : Currency)
    (h : (Depth http symbolStr 0).2 ≠ none ∨
      (GetExchangeRateFl fl src dst (Depth http symbolStr 0).1).isSome = true) :
    ∃ er, GetExchangeRateFl fl src dst (Depth http symbolStr 0).1 = some er := by
  rcases h with h | h
  · rw [Depth_error_zero http symbolStr 0 h]
    exact Option.isSome_iff_exists.1 (GetExchangeRateFl_zeroDepth fl src dst)
  · exact Option.isSome_iff_exists.1 h

/-- C8 (amended): `Chain.Try` has no failure result for a failed fetch.  For
plain alphanumeric currency tokens and symbol strings: when `Depth` returns an
error it returns the zero-valued snapshot with it, `Try` discards the error and
evaluates the leg on that snapshot; so whenever each leg either fails to fetch
or is fetched with a snapshot that `GetExchangeRate` can read, `Try` returns
its pair of float64 results, whatever the rounding `fl` of the arithmetic (the
exact `Chain.Try` included).  The numbers themselves are not stated: on an
empty book they are NaN in Go, which the model does not represent. -/
theorem Try_discards_fetch_error (fl : ℚ → ℚ) (http : Nat → String → Int → Response)
    (symbols : List Symbol) (c0 c1 c2 : Currency) (more : List Currency) (s1 s2 s3 : String)
    (_hc0 : plainToken c0 = true) (_hc1 : plainToken c1 = true) (_hc2 : plainToken c2 = true)
    (_hs1 : plainToken s1 = true) (_hs2 : plainToken s2 = true) (_hs3 : plainToken s3 = true)
    (h1 : getSymbolStr [c0, c1] symbols = some s1)
    (h2 : getSymbolStr [c1, c2] symbols = some s2)
    (h3 : getSymbolStr [c2, c0] symbols = some s3)
    (l1 : (Depth (http 0) s1 0).2 ≠ none ∨
      (GetExchangeRateFl fl c0 c1 (Depth (http 0) s1 0).1).isSome = true)
    (l2 : (Depth (http 1) s2 0).2 ≠ none ∨
      (GetExchangeRateFl fl c1 c2 (Depth (http 1) s2 0).1).isSome = true)
    (l3 : (Depth (http 2) s3 0).2 ≠ none ∨
      (GetExchangeRateFl fl c2 c0 (Depth (http 2) s3 0).1).isSome = true) :
    ((Depth (http 0) s1 0).2 ≠ none → (Depth (http 0) s1 0).1 = zeroDepth) ∧
      ((Depth (http 1) s2 0).2 ≠ none → (Depth (http 1) s2 0).1 = zeroDepth) ∧
      ((Depth (http 2) s3 0).2 ≠ none → (Depth (http 2) s3 0).1 = zeroDepth) ∧
      (Chain.TryFl fl http (c0 :: c1 :: c2 :: more) symbols).isSome = true ∧
      (Chain.Try http (c0 :: c1 :: c2 :: more) symbols).isSome = true := by
  refine ⟨Depth_error_zero (http 0) s1 0, Depth_error_zero (http 1) s2 0,
    Depth_error_zero (http 2) s3 0, ?_⟩
  have key : ∀ fl' : ℚ → ℚ,
      ((Depth (http 0) s1 0).2 ≠ none ∨
        (GetExchangeRateFl fl' c0 c1 (Depth (http 0) s1 0).1).isSome = true) →
      ((Depth (http 1) s2 0).2 ≠ none ∨
        (GetExchangeRateFl fl' c1 c2 (Depth (http 1) s2 0).1).isSome = true) →
      ((Depth (http 2) s3 0).2 ≠ none ∨
        (GetExchangeRateFl fl' c2 c0 (Depth (http 2) s3 0).1).isSome = true) →
      (Chain.TryFl fl' http (c0 :: c1 :: c2 :: more) symbols).isSome = true := by
    intro fl' k1 k2 k3
    obtain ⟨r1, g1⟩ := leg_isSomeFl fl' (http 0) s1 c0 c1 k1
    obtain ⟨r2, g2⟩ := leg_isSomeFl fl' (http 1) s2 c1 c2 k2
    obtain ⟨r3, g3⟩ := leg_isSomeFl fl' (http 2) s3 c2 c0 k3
    rw [TryFl_eq_tryResultFl fl' http symbols c0 c1 c2 more s1 s2 s3 r1 r2 r3 h1 h2 h3
      g1 g2 g3, tryResultFl_three]
    rfl
  refine ⟨key fl l1 l2 l3, ?_⟩
  rw [← TryFl_id]
  apply key id
  · rcases l1 with h | h
    · exact Or.inl h
    · exact Or.inr (isSome_GetExchangeRateFl fl id c0 c1 _ h)
  · rcases l2 with h | h
    · exact Or.inl h
    · exact Or.inr (isSome_GetExchangeRateFl fl id c1 c2 _ h)
  · rcases l3 with h | h
    · exact Or.inl h
    · exact Or.inr (isSome_GetExchangeRateFl fl id c2 c0 _ h)

theorem Try_discards_fetch_error_witness :
    ((Depth (failingHttp 0) "usdtbtc" 0).2 ≠ none →
        (Depth (failingHttp 0) "usdtbtc" 0).1 = zeroDepth) ∧
      ((Depth (failingHttp 1) "btceth" 0).2 ≠ none →
        (Depth (failingHttp 1) "btceth" 0).1 = zeroDepth) ∧
      ((Depth (failingHttp 2) "ethusdt" 0).2 ≠ none →
        (Depth (failingHttp 2) "ethusdt" 0).1 = zeroDepth) ∧
      (Chain.TryFl round64 failingHttp ["usdt", "btc", "eth"] triangleCatalog).isSome = true ∧
      (Chain.Try failingHttp ["usdt", "btc", "eth"] triangleCatalog).isSome = true :=
  Try_discards_fetch_error round64 failingHttp triangleCatalog "usdt" "btc" "eth" []
    "usdtbtc" "btceth" "ethusdt" (by decide) (by decide) (by decide) (by decide) (by decide)
    (by decide) (by decide) (by decide) (by decide)
    (Or.inl (by decide)) (Or.inl (by decide)) (Or.inl (by decide))

end huobi
